import Mathlib

/-!
Verification of the retrieval-and-reasoning core of the AI study-abroad
consultant repository: the page-type-aware chunker, the two-stage hybrid
retriever, the numeric sanity auditor, multi-query expansion, the vector-store
upsert, and the bounded tool-calling agent loop.

Python code is shallowly embedded: dict rows become structures, floats become
rationals, fallible calls return `Except PyErr`, in-place dict mutation is
modelled by explicit state passing, and Python's stable `sorted(...,
reverse=True)` is modelled by a stable descending insertion sort (the result of
a stable sort is uniquely determined by the key order and input order, so any
stable implementation is a faithful model).
-/

set_option maxHeartbeats 1000000
set_option maxRecDepth 100000

namespace StudyAbroad

/-- A Python exception value that can propagate across function boundaries
(`KeyError` from `args["query"]`, or any other raised exception). -/
inductive PyErr where
  | keyError (key : String)
  | other (msg : String)
deriving DecidableEq, Repr

/-- An embedding vector (`embed_texts` returns `list[list[float]]`). -/
abbrev Vec := List ℚ

/-- One retrieved document row, as produced by the SELECT in
`search.py::search_core` (keys `chunk_text`, `source_url`, `page_type`,
`school_id`, `metadata`, `university_name`, `vector_score`).  The optional
fields `rerank_score` and `sanity_warnings` model dict keys that are only
written later by `reranker.py::rerank` and `sanity_check.py::annotate_results`. -/
instance {ε α : Type} [DecidableEq ε] [DecidableEq α] : DecidableEq (Except ε α) := fun
  | .error e, .error f =>
      decidable_of_iff (e = f) ⟨by rintro rfl; rfl, fun h => by injection h⟩
  | .error _, .ok _ => .isFalse fun h => Except.noConfusion h
  | .ok _, .error _ => .isFalse fun h => Except.noConfusion h
  | .ok a, .ok b =>
      decidable_of_iff (a = b) ⟨by rintro rfl; rfl, fun h => by injection h⟩

structure Doc where
  chunk_text : String
  source_url : String := ""
  page_type : String := ""
  school_id : String := ""
  metadata : List (String × String) := []
  university_name : String := ""
  vector_score : ℚ := 0
  rerank_score : Option ℚ := none
  sanity_warnings : Option (List String) := none
deriving DecidableEq, Repr, Inhabited

/-- Stable insertion of `x` in front of the first element whose key is ≤ its
own, into a list that is sorted descending by `key`. -/
def insertDescBy {α : Type} (key : α → ℚ) (x : α) : List α → List α
  | [] => [x]
  | y :: ys => if key y ≤ key x then x :: y :: ys else y :: insertDescBy key x ys

/-- Stable descending sort by `key`: the semantics of Python's
`sorted(..., key=key, reverse=True)` (Timsort is stable, and a stable sort is
uniquely determined by key order and input order). -/
def sortDescBy {α : Type} (key : α → ℚ) : List α → List α
  | [] => []
  | x :: xs => insertDescBy key x (sortDescBy key xs)

theorem insertDescBy_perm {α : Type} (key : α → ℚ) (x : α) (l : List α) :
    List.Perm (insertDescBy key x l) (x :: l) := by
  induction l with
  | nil => simp [insertDescBy]
  | cons y ys ih =>
    simp only [insertDescBy]
    split
    · exact List.Perm.refl _
    · exact (ih.cons y).trans (List.Perm.swap x y ys)

theorem sortDescBy_perm {α : Type} (key : α → ℚ) (l : List α) :
    List.Perm (sortDescBy key l) l := by
  induction l with
  | nil => simp [sortDescBy]
  | cons x xs ih =>
    exact (insertDescBy_perm key x (sortDescBy key xs)).trans (ih.cons x)

theorem length_sortDescBy {α : Type} (key : α → ℚ) (l : List α) :
    (sortDescBy key l).length = l.length :=
  (sortDescBy_perm key l).length_eq

theorem mem_insertDescBy {α : Type} (key : α → ℚ) (x : α) (l : List α) (z : α) :
    z ∈ insertDescBy key x l ↔ z = x ∨ z ∈ l := by
  rw [(insertDescBy_perm key x l).mem_iff]
  simp

theorem mem_sortDescBy {α : Type} (key : α → ℚ) (l : List α) (z : α) :
    z ∈ sortDescBy key l ↔ z ∈ l :=
  (sortDescBy_perm key l).mem_iff

theorem pairwise_insertDescBy {α : Type} (key : α → ℚ) (x : α) (l : List α)
    (h : List.Pairwise (fun a b => key b ≤ key a) l) :
    List.Pairwise (fun a b => key b ≤ key a) (insertDescBy key x l) := by
  induction l with
  | nil => simp [insertDescBy]
  | cons y ys ih =>
    rw [List.pairwise_cons] at h
    obtain ⟨hy, hys⟩ := h
    simp only [insertDescBy]
    split
    · rename_i hyx
      refine List.Pairwise.cons ?_ (List.Pairwise.cons hy hys)
      intro z hz
      rcases List.mem_cons.mp hz with rfl | hz
      · exact hyx
      · exact le_trans (hy z hz) hyx
    · rename_i hyx
      refine List.Pairwise.cons ?_ (ih hys)
      intro z hz
      rcases (mem_insertDescBy key x ys z).mp hz with rfl | hz
      · exact le_of_lt (lt_of_not_le hyx)
      · exact hy z hz

theorem pairwise_sortDescBy {α : Type} (key : α → ℚ) (l : List α) :
    List.Pairwise (fun a b => key b ≤ key a) (sortDescBy key l) := by
  induction l with
  | nil => simp [sortDescBy]
  | cons x xs ih => exact pairwise_insertDescBy key x (sortDescBy key xs) ih

theorem filter_insertDescBy {α : Type} (key : α → ℚ) (c : ℚ) (x : α) (l : List α) :
    (insertDescBy key x l).filter (fun a => decide (key a = c)) =
      if key x = c then x :: l.filter (fun a => decide (key a = c))
      else l.filter (fun a => decide (key a = c)) := by
  induction l with
  | nil =>
    by_cases hx : key x = c <;> simp [insertDescBy, hx]
  | cons y ys ih =>
    simp only [insertDescBy]
    by_cases hyx : key y ≤ key x
    · rw [if_pos hyx]
      by_cases hx : key x = c <;> simp [List.filter_cons, hx]
    · rw [if_neg hyx]
      rw [List.filter_cons, ih]
      by_cases hx : key x = c
      · have hyc : ¬ (key y = c) := by
          intro hyc
          exact hyx (le_of_eq (hx ▸ hyc))
        simp [hx, hyc, List.filter_cons]
      · simp [hx, List.filter_cons]

/-- Stability of `sortDescBy`: the elements having any fixed key value appear
in the output in exactly their input order. -/
theorem filter_sortDescBy {α : Type} (key : α → ℚ) (c : ℚ) (l : List α) :
    (sortDescBy key l).filter (fun a => decide (key a = c)) =
      l.filter (fun a => decide (key a = c)) := by
  induction l with
  | nil => simp [sortDescBy]
  | cons x xs ih =>
    simp only [sortDescBy]
    rw [filter_insertDescBy, ih, List.filter_cons]
    by_cases hx : key x = c <;> simp [hx]

/-- The sort key used by `reranker.py` (`x["rerank_score"]`; all documents have
the key written before the sort, `getD 0` is only a totalisation). -/
def rerankKey (d : Doc) : ℚ := d.rerank_score.getD 0

/-- `reranker.py::rerank`: score every `(query, chunk_text)` pair with the
cross-encoder (modelled by the pure oracle `scoreOf`), write the score into
each document, sort descending by it (stable), and truncate to `top_n`. -/
def rerank (scoreOf : String → String → ℚ) (query : String) (documents : List Doc)
    (top_n : Nat) : List Doc :=
  if documents.isEmpty then []
  else
    (sortDescBy rerankKey (documents.map fun d =>
      { d with rerank_score := some (scoreOf query d.chunk_text) })).take top_n

/-- Python truthiness of the optional SQL filters in `search_core`
(`if school_id:` — `None` and `""` are both falsy, so no filter is added). -/
def optMatch (v : Option String) (field : String) : Bool :=
  match v with
  | none => true
  | some s => if s = "" then true else field = s

/-- The SELECT in `search_core` re-creates each row dict from the fetched
columns, so the derived keys `rerank_score` / `sanity_warnings` are absent. -/
def clearDerived (d : Doc) : Doc :=
  { d with rerank_score := none, sanity_warnings := none }

/-- Stage 1 of `search_core`: the SQL query `WHERE <filters> ORDER BY embedding
<=> query_vector LIMIT initial_k`, over `table` taken in ANN (ascending
distance) order for the query at hand, with `initial_k = top_k * 3` when the
rerank stage is enabled. -/
def stage1 (table : List Doc) (top_k : Nat) (use_rerank : Bool)
    (school_id page_type : Option String) : List Doc :=
  ((table.filter fun d =>
      optMatch school_id d.school_id && optMatch page_type d.page_type).take
    (if use_rerank then top_k * 3 else top_k)).map clearDerived

/-- `search.py::search_core`.  `embedR` is the result of the
`embed_texts([query])` call (note: made *outside* the `try` block, so an
exception there propagates), `connOk` models `get_connection()` returning a
connection vs `None`, and `storageErr` models an exception raised anywhere
inside the `try` block (caught, printed, and turned into `[]`).  `table` is the
stored chunk set in ANN order for this query. -/
def search_core (query : String) (embedR : Except PyErr (List Vec)) (connOk : Bool)
    (storageErr : Option PyErr) (table : List Doc) (scoreOf : String → String → ℚ)
    (top_k : Nat) (use_rerank : Bool) (school_id page_type : Option String) :
    Except PyErr (List Doc) :=
  match embedR with
  | .error e => .error e
  | .ok query_embeddings =>
    if query_embeddings.isEmpty then .ok []
    else if ¬ connOk then .ok []
    else
      match storageErr with
      | some _ => .ok []
      | none =>
        let rows := stage1 table top_k use_rerank school_id page_type
        if rows.isEmpty then .ok []
        else
          let candidates := rows
          if use_rerank = true ∧ top_k < candidates.length then
            .ok (rerank scoreOf query candidates top_k)
          else
            .ok (candidates.take top_k)

/-- Stage-1 candidates with the cross-encoder score for the query written into
each row — the list that `rerank` stably sorts in stage 2. -/
def scoredStage1 (query : String) (table : List Doc) (scoreOf : String → String → ℚ)
    (top_k : Nat) (use_rerank : Bool) (school_id page_type : Option String) : List Doc :=
  (stage1 table top_k use_rerank school_id page_type).map fun d =>
    { d with rerank_score := some (scoreOf query d.chunk_text) }

theorem pairwise_of_key_const {α : Type} (key : α → ℚ) (l : List α)
    (h : ∀ a ∈ l, key a = 0) :
    List.Pairwise (fun a b => key b ≤ key a) l := by
  induction l with
  | nil => simp
  | cons x xs ih =>
    refine List.Pairwise.cons ?_ (ih fun a ha => h a (List.mem_cons_of_mem x ha))
    intro b hb
    rw [h b (List.mem_cons_of_mem x hb), h x (List.mem_cons_self x xs)]

theorem stage1_rerank_score_none (table : List Doc) (top_k : Nat) (use_rerank : Bool)
    (school_id page_type : Option String) (d : Doc)
    (hd : d ∈ stage1 table top_k use_rerank school_id page_type) :
    d.rerank_score = none := by
  unfold stage1 at hd
  obtain ⟨e, _, rfl⟩ := List.mem_map.mp hd
  rfl

theorem filter_rerank_none_nil (l : List Doc) (c : ℚ)
    (h : ∀ d ∈ l, d.rerank_score = none) :
    l.filter (fun d => decide (d.rerank_score = some c)) = [] := by
  induction l with
  | nil => rfl
  | cons x xs ih =>
    rw [List.filter_cons]
    have hx := h x (List.mem_cons_self x xs)
    simp only [hx]
    simp only [decide_eq_true_eq, reduceCtorEq, if_false]
    exact ih fun d hd => h d (List.mem_cons_of_mem x hd)

/-- C3: `search_core` returns at most `top_k` rows; with reranking enabled the
returned order is non-increasing in rerank score, and for every score value
the returned rows carrying that score form a prefix of the stage-1 (scored)
rows carrying it — equal scores preserve stage-1 retrieval order. -/
theorem search_core_len_sorted_stable
    (query : String) (embedR : Except PyErr (List Vec)) (connOk : Bool)
    (storageErr : Option PyErr) (table : List Doc) (scoreOf : String → String → ℚ)
    (top_k : Nat) (use_rerank : Bool) (school_id page_type : Option String)
    (res : List Doc)
    (h : search_core query embedR connOk storageErr table scoreOf top_k use_rerank
      school_id page_type = .ok res) :
    res.length ≤ top_k ∧
    (use_rerank = true →
      List.Pairwise (fun a b => rerankKey b ≤ rerankKey a) res ∧
      ∀ c : ℚ, ∃ rest,
        res.filter (fun d => decide (d.rerank_score = some c)) ++ rest =
          (scoredStage1 query table scoreOf top_k use_rerank school_id
            page_type).filter (fun d => decide (d.rerank_score = some c))) := by
  have hnil : ∀ r : List Doc, r = [] →
      r.length ≤ top_k ∧
      (use_rerank = true →
        List.Pairwise (fun a b => rerankKey b ≤ rerankKey a) r ∧
        ∀ c : ℚ, ∃ rest,
          r.filter (fun d => decide (d.rerank_score = some c)) ++ rest =
            (scoredStage1 query table scoreOf top_k use_rerank school_id
              page_type).filter (fun d => decide (d.rerank_score = some c))) := by
    rintro r rfl
    exact ⟨Nat.zero_le _, fun _ => ⟨List.Pairwise.nil, fun c =>
      ⟨(scoredStage1 query table scoreOf top_k use_rerank school_id
          page_type).filter (fun d => decide (d.rerank_score = some c)),
        by simp⟩⟩⟩
  rcases embedR with e | qe
  · exact absurd h (by simp [search_core])
  · simp only [search_core] at h
    split at h
    · injection h with h
      exact hnil res h.symm
    · split at h
      · injection h with h
        exact hnil res h.symm
      · split at h
        · injection h with h
          exact hnil res h.symm
        · split at h
          · injection h with h
            exact hnil res h.symm
          · rename_i hrows
            split at h
            · -- rerank branch: use_rerank = true ∧ top_k < candidates.length
              rename_i hcond
              injection h with h
              subst h
              have hdocs : (stage1 table top_k use_rerank school_id
                  page_type).isEmpty = false := by
                simpa using hrows
              rw [rerank, hdocs] at *
              simp only [Bool.false_eq_true, if_false]
              constructor
              · exact le_trans (List.length_take_le _ _) (le_refl _)
              · intro _
                constructor
                · exact (pairwise_sortDescBy rerankKey _).sublist
                    (List.take_sublist _ _)
                · intro c
                  set S := scoredStage1 query table scoreOf top_k use_rerank
                    school_id page_type with hS
                  have hmap : ((stage1 table top_k use_rerank school_id
                      page_type).map fun d =>
                        { d with rerank_score := some (scoreOf query d.chunk_text) }) = S := rfl
                  rw [hmap]
                  have hsome : ∀ d ∈ S, ∃ x, d.rerank_score = some x := by
                    intro d hd
                    obtain ⟨e, _, rfl⟩ := List.mem_map.mp hd
                    exact ⟨_, rfl⟩
                  have hagree : ∀ (l : List Doc), (∀ d ∈ l, ∃ x, d.rerank_score = some x) →
                      l.filter (fun d => decide (d.rerank_score = some c)) =
                        l.filter (fun a => decide (rerankKey a = c)) := by
                    intro l hl
                    apply List.filter_congr
                    intro d hd
                    obtain ⟨x, hx⟩ := hl d hd
                    simp [hx, rerankKey]
                  refine ⟨((sortDescBy rerankKey S).drop top_k).filter
                    (fun d => decide (d.rerank_score = some c)), ?_⟩
                  rw [← List.filter_append, List.take_append_drop,
                    hagree _ (fun d hd => hsome d ((mem_sortDescBy rerankKey S d).mp hd)),
                    filter_sortDescBy, ← hagree S hsome]
            · -- skip branch: stage-1 order is final
              rename_i hcond
              injection h with h
              subst h
              constructor
              · exact List.length_take_le _ _
              · intro hre
                have hmem : ∀ d ∈ (stage1 table top_k use_rerank school_id
                    page_type).take top_k, d.rerank_score = none := by
                  intro d hd
                  exact stage1_rerank_score_none table top_k use_rerank school_id
                    page_type d (List.take_subset _ _ hd)
                constructor
                · apply pairwise_of_key_const
                  intro a ha
                  simp [rerankKey, hmem a ha]
                · intro c
                  rw [filter_rerank_none_nil _ c hmem]
                  exact ⟨(scoredStage1 query table scoreOf top_k use_rerank
                      school_id page_type).filter
                      (fun d => decide (d.rerank_score = some c)), by simp⟩

/-- Concrete data for the C3 witness. -/
def tableC3 : List Doc :=
  [{ chunk_text := "alpha", vector_score := 2 },
   { chunk_text := "beta", vector_score := 1 }]

/-- Concrete cross-encoder oracle for the C3 witness. -/
def scoreC3 : String → String → ℚ := fun _ t => if t = "beta" then 5 else 3

/-- Concrete result of `search_core` for the C3 witness inputs. -/
def resC3 : List Doc :=
  [{ chunk_text := "beta", vector_score := 1, rerank_score := some 5 }]

/-- Witness for C3 at a concrete input: two stored rows, `top_k = 1`,
reranking enabled. -/
theorem search_core_len_sorted_stable_witness :
    resC3.length ≤ 1 ∧
    (true = true →
      List.Pairwise (fun a b => rerankKey b ≤ rerankKey a) resC3 ∧
      ∀ c : ℚ, ∃ rest,
        resC3.filter (fun d => decide (d.rerank_score = some c)) ++ rest =
          (scoredStage1 "q" tableC3 scoreC3 1 true none
            none).filter (fun d => decide (d.rerank_score = some c))) :=
  search_core_len_sorted_stable "q" (.ok [[1]]) true none tableC3 scoreC3 1 true
    none none resC3 (by decide)

/-- C4 (amended): an empty embedding result, an unavailable connection, or an
exception inside the `try` block (storage/query failure) all make
`search_core` return the empty list. -/
theorem search_core_storage_failure_empty
    (query : String) (embedR : Except PyErr (List Vec)) (connOk : Bool)
    (storageErr : Option PyErr) (table : List Doc) (scoreOf : String → String → ℚ)
    (top_k : Nat) (use_rerank : Bool) (school_id page_type : Option String) :
    (embedR = .ok [] →
      search_core query embedR connOk storageErr table scoreOf top_k use_rerank
        school_id page_type = .ok []) ∧
    (∀ v, embedR = .ok v → connOk = false →
      search_core query embedR connOk storageErr table scoreOf top_k use_rerank
        school_id page_type = .ok []) ∧
    (∀ v e, embedR = .ok v → storageErr = some e →
      search_core query embedR connOk storageErr table scoreOf top_k use_rerank
        school_id page_type = .ok []) := by
  refine ⟨?_, ?_, ?_⟩
  · rintro rfl
    simp [search_core]
  · rintro v rfl rfl
    by_cases hv : v.isEmpty = true <;> simp [search_core, hv]
  · rintro v e rfl rfl
    by_cases hv : v.isEmpty = true
    · simp [search_core, hv]
    · by_cases hc : connOk <;> simp [search_core, hv, hc]

/-- Witness for C4 (amended) at concrete inputs: all three failure modes
return the empty result. -/
theorem search_core_storage_failure_empty_witness :
    search_core "q" (.ok []) true none [] (fun _ _ => 0) 5 true none none =
      .ok [] ∧
    search_core "q" (.ok [[1]]) false none [] (fun _ _ => 0) 5 true none none =
      .ok [] ∧
    search_core "q" (.ok [[1]]) true (some (PyErr.other "db down")) []
      (fun _ _ => 0) 5 true none none = .ok [] :=
  ⟨(search_core_storage_failure_empty "q" (.ok []) true none [] (fun _ _ => 0) 5
      true none none).1 rfl,
   (search_core_storage_failure_empty "q" (.ok [[1]]) false none [] (fun _ _ => 0)
      5 true none none).2.1 [[1]] rfl rfl,
   (search_core_storage_failure_empty "q" (.ok [[1]]) true
      (some (PyErr.other "db down")) [] (fun _ _ => 0) 5 true none
      none).2.2 [[1]] (PyErr.other "db down") rfl rfl⟩

/-- Counterexample to C4 as stated: the `embed_texts` call sits *outside* the
`try` block of `search_core`, so an exception raised by the embedding call
propagates past the `search_core` boundary instead of yielding an empty
result. -/
theorem search_core_embed_exception_escapes :
    search_core "q" (.error (PyErr.other "embedding raised")) true none []
        (fun _ _ => 0) 5 true none none =
      .error (PyErr.other "embedding raised") ∧
    (Except.error (PyErr.other "embedding raised") :
        Except PyErr (List Doc)) ≠ .ok [] :=
  ⟨rfl, by decide⟩

/-- Heap view of `reranker.py::rerank`, needed to talk about its in-place
effects: the Python list `documents` is a list of references (heap indices)
into a heap of dicts.  `writeScore` is `documents[i]["rerank_score"] =
float(score)` for one reference; the score of a reference is the
cross-encoder score of its own `chunk_text` (the pair list is built from the
same dicts). -/
def writeScore (scoreOf : String → String → ℚ) (query : String)
    (heap : List Doc) (r : Nat) : List Doc :=
  heap.set r
    { heap.getD r default with
      rerank_score := some (scoreOf query (heap.getD r default).chunk_text) }

/-- Heap view of `rerank`: write every document's score into the heap, then
stably sort the *references* descending by the written score and truncate to
`top_n`.  Returns the mutated heap and the returned references. -/
def rerankHeap (scoreOf : String → String → ℚ) (query : String) (heap : List Doc)
    (docRefs : List Nat) (top_n : Nat) : List Doc × List Nat :=
  if docRefs.isEmpty then (heap, [])
  else
    let heap1 := docRefs.foldl (writeScore scoreOf query) heap
    (heap1,
      (sortDescBy (fun r => (heap1.getD r default).rerank_score.getD 0)
        docRefs).take top_n)

theorem getD_set_self (l : List Doc) (n : Nat) (v : Doc) (h : n < l.length) :
    (l.set n v).getD n default = v := by
  induction l generalizing n with
  | nil => simp at h
  | cons a as ih =>
    cases n with
    | zero => rfl
    | succ m =>
      simp only [List.set, List.getD, List.get?]
      exact ih m (by simpa using h)

theorem getD_set_ne (l : List Doc) (n m : Nat) (v : Doc) (h : m ≠ n) :
    (l.set n v).getD m default = l.getD m default := by
  induction l generalizing n m with
  | nil => rfl
  | cons a as ih =>
    cases n with
    | zero =>
      cases m with
      | zero => exact absurd rfl h
      | succ k => rfl
    | succ n =>
      cases m with
      | zero => rfl
      | succ k =>
        simp only [List.set, List.getD, List.get?]
        exact ih n k (fun e => h (by rw [e]))

theorem length_writeScore (scoreOf : String → String → ℚ) (query : String)
    (heap : List Doc) (r : Nat) :
    (writeScore scoreOf query heap r).length = heap.length := by
  simp [writeScore]

theorem chunk_text_writeScore (scoreOf : String → String → ℚ) (query : String)
    (heap : List Doc) (a r : Nat) :
    ((writeScore scoreOf query heap a).getD r default).chunk_text =
      (heap.getD r default).chunk_text := by
  by_cases h : r = a
  · subst h
    by_cases hr : r < heap.length
    · rw [writeScore, getD_set_self _ _ _ hr]
    · rw [writeScore, List.set_eq_of_length_le (Nat.le_of_not_lt hr)]
  · rw [writeScore, getD_set_ne _ _ _ _ h]

theorem length_foldl_writeScore (scoreOf : String → String → ℚ) (query : String)
    (refs : List Nat) (heap : List Doc) :
    (refs.foldl (writeScore scoreOf query) heap).length = heap.length := by
  induction refs generalizing heap with
  | nil => rfl
  | cons a rest ih =>
    rw [List.foldl_cons, ih, length_writeScore]

theorem chunk_text_foldl_writeScore (scoreOf : String → String → ℚ)
    (query : String) (refs : List Nat) (heap : List Doc) (r : Nat) :
    ((refs.foldl (writeScore scoreOf query) heap).getD r default).chunk_text =
      (heap.getD r default).chunk_text := by
  induction refs generalizing heap with
  | nil => rfl
  | cons a rest ih =>
    rw [List.foldl_cons, ih, chunk_text_writeScore]

theorem getD_foldl_writeScore_not_mem (scoreOf : String → String → ℚ)
    (query : String) (refs : List Nat) (heap : List Doc) (r : Nat)
    (h : r ∉ refs) :
    (refs.foldl (writeScore scoreOf query) heap).getD r default =
      heap.getD r default := by
  induction refs generalizing heap with
  | nil => rfl
  | cons a rest ih =>
    rw [List.foldl_cons,
      ih _ (fun hr => h (List.mem_cons_of_mem a hr)),
      writeScore, getD_set_ne _ _ _ _
        (fun e => h (by rw [e]; exact List.mem_cons_self a rest))]

theorem rerank_score_foldl_writeScore_mem (scoreOf : String → String → ℚ)
    (query : String) (refs : List Nat) (heap : List Doc) (r : Nat)
    (hmem : r ∈ refs) (hlen : r < heap.length) :
    ((refs.foldl (writeScore scoreOf query) heap).getD r default).rerank_score =
      some (scoreOf query (heap.getD r default).chunk_text) := by
  induction refs generalizing heap with
  | nil => simp at hmem
  | cons a rest ih =>
    rw [List.foldl_cons]
    by_cases hr : r ∈ rest
    · rw [ih (writeScore scoreOf query heap a) hr
        (by rw [length_writeScore]; exact hlen), chunk_text_writeScore]
    · have hra : r = a := by
        rcases List.mem_cons.mp hmem with h | h
        · exact h
        · exact absurd h hr
      subst hra
      rw [getD_foldl_writeScore_not_mem _ _ _ _ _ hr, writeScore,
        getD_set_self _ _ _ hlen]

/-- C10: `rerank` writes a `rerank_score` into *every* input document dict —
also those that do not survive the `top_n` truncation — and the returned list
holds the very same dict objects (references) as the input, not copies. -/
theorem rerank_mutates_all_and_returns_aliases
    (scoreOf : String → String → ℚ) (query : String) (heap : List Doc)
    (docRefs : List Nat) (top_n : Nat)
    (hne : docRefs ≠ []) (hvalid : ∀ r ∈ docRefs, r < heap.length) :
    (∀ r ∈ docRefs,
      ((rerankHeap scoreOf query heap docRefs top_n).1.getD r default).rerank_score =
        some (scoreOf query ((heap.getD r default).chunk_text))) ∧
    (∀ r ∈ (rerankHeap scoreOf query heap docRefs top_n).2, r ∈ docRefs) := by
  have hcons : docRefs.isEmpty = false := by
    cases docRefs with
    | nil => exact absurd rfl hne
    | cons a rest => rfl
  constructor
  · intro r hr
    simp only [rerankHeap, hcons, Bool.false_eq_true, if_false]
    exact rerank_score_foldl_writeScore_mem scoreOf query docRefs heap r hr
      (hvalid r hr)
  · intro r hr
    simp only [rerankHeap, hcons, Bool.false_eq_true, if_false] at hr
    exact (mem_sortDescBy _ docRefs r).mp (List.take_subset _ _ hr)

/-- Concrete heap for the C10 witness. -/
def heapC10 : List Doc :=
  [{ chunk_text := "a" }, { chunk_text := "b" }, { chunk_text := "c" }]

/-- Concrete cross-encoder oracle for the C10 witness. -/
def scoreC10 : String → String → ℚ := fun _ t => if t = "b" then 7 else 2

/-- Witness for C10 at a concrete input: three documents, `top_n = 1`; all
three dicts get a score written, and the single returned reference is one of
the input references. -/
theorem rerank_mutates_all_and_returns_aliases_witness :
    (∀ r ∈ [0, 1, 2],
      ((rerankHeap scoreC10 "q" heapC10 [0, 1, 2] 1).1.getD r default).rerank_score =
        some (scoreC10 "q" ((heapC10.getD r default).chunk_text))) ∧
    (∀ r ∈ (rerankHeap scoreC10 "q" heapC10 [0, 1, 2] 1).2, r ∈ [0, 1, 2]) :=
  rerank_mutates_all_and_returns_aliases scoreC10 "q" heapC10 [0, 1, 2] 1
    (by decide) (by decide)

/-! ### sanity_check.py — the numeric plausibility auditor

The five `re` patterns of `sanity_check.py` are embedded as executable
matchers over `List Char`.  Python semantics modelled: `finditer` scans left
to right and resumes after each (non-empty) match; `.*?` is lazy and does not
cross a newline; `\d{m,n}` is greedy; optional groups consume nothing when
they fail; `\b` is a word/non-word transition (we treat ASCII alphanumerics,
underscore, and CJK ideographs as word characters, matching Python's
unicode `\w` on the texts at hand); matching is case-insensitive where the
source sets `re.IGNORECASE`.  Float values parsed from the captured groups
carry at most two decimals, so they are modelled exactly as hundredths. -/

/-- `sanity_check.py::SanityWarning` (fields `rule`, `matched_text`,
`reason`). -/
structure SanityWarning where
  rule : String
  matched_text : String
  reason : String
deriving DecidableEq, Repr

/-- Python `\w` on the texts in the corpus: ASCII alphanumerics, underscore,
CJK ideographs. -/
def isWordChar (c : Char) : Bool :=
  c.isAlphanum || c = '_' || (0x4E00 ≤ c.toNat && c.toNat ≤ 0x9FFF)

/-- `\b` at a match start: the previous character (if any) is not a word
character (all keywords start with a word character). -/
def boundaryBefore (prev : Option Char) : Bool :=
  match prev with
  | none => true
  | some c => !(isWordChar c)

/-- `\b` right after a keyword: next char absent or not a word character. -/
def boundaryAfterWord (rest : List Char) : Bool :=
  match rest with
  | [] => true
  | c :: _ => !(isWordChar c)

/-- Case-insensitive literal match; returns the consumed original-case prefix
and the rest.  The pattern is given in lowercase. -/
def matchCIpre : List Char → List Char → Option (List Char × List Char)
  | [], cs => some ([], cs)
  | _ :: _, [] => none
  | p :: ps, c :: cs =>
    if c.toLower = p then
      match matchCIpre ps cs with
      | some (g, r) => some (c :: g, r)
      | none => none
    else none

/-- `\s+`: one or more whitespace characters (greedy). -/
def matchWs1 (cs : List Char) : Option (List Char × List Char) :=
  let (ws, r) := cs.span Char.isWhitespace
  if ws.isEmpty then none else some (ws, r)

/-- `\d{0,max}` greedy. -/
def takeDigitsUpTo : Nat → List Char → List Char × List Char
  | 0, cs => ([], cs)
  | _, [] => ([], [])
  | n + 1, c :: cs =>
    if c.isDigit then
      let (t, r) := takeDigitsUpTo n cs
      (c :: t, r)
    else ([], c :: cs)

/-- Decimal digits to a natural number. -/
def digitsToNat (ds : List Char) : Nat :=
  ds.foldl (fun n c => n * 10 + (c.toNat - 48)) 0

/-- `_parse_float`, exactly, in hundredths: strip commas, parse
`digits[.digits]` (the embedded patterns capture at most two decimals). -/
def parseHundredths (s : List Char) : Option Nat :=
  let t := s.filter (fun c => c ≠ ',')
  match t.span Char.isDigit with
  | (ds, []) => if ds.isEmpty then none else some (digitsToNat ds * 100)
  | (ds, '.' :: fs) =>
    if ds.isEmpty then none
    else if fs.all Char.isDigit ∧ fs.length = 1 then
      some (digitsToNat ds * 100 + digitsToNat fs * 10)
    else if fs.all Char.isDigit ∧ fs.length = 2 then
      some (digitsToNat ds * 100 + digitsToNat fs)
    else none
  | _ => none

/-- `str(float)` for a hundredths value, as Python prints it
(`9.2`, `3.75`, `130.0`). -/
def fmtFloat (h : Nat) : String :=
  let ip := toString (h / 100)
  let fr := h % 100
  if fr = 0 then ip ++ ".0"
  else if fr % 10 = 0 then ip ++ "." ++ toString (fr / 10)
  else if fr < 10 then ip ++ ".0" ++ toString fr
  else ip ++ "." ++ toString fr

/-- Digit triples for thousand grouping, low-order group first. -/
def groupThrees : List Char → List (List Char)
  | [] => []
  | a :: b :: c :: d :: rest => [a, b, c] :: groupThrees (d :: rest)
  | l => [l]

/-- Python `f"{val:,.0f}"` for an integral hundredths value. -/
def fmtComma (h : Nat) : String :=
  let rev := (toString (h / 100)).toList.reverse
  String.intercalate "," (((groupThrees rev).map fun g => String.mk g.reverse).reverse)

/-- Lazy `.*?` (not crossing a newline) followed by a number matcher that
yields `(group1, consumed, rest)`: try the number at the current position,
else grow the gap one character. -/
def lazyGap (numAt : List Char → Option (List Char × List Char × List Char)) :
    List Char → Option (List Char × List Char × List Char × List Char)
  | [] =>
    match numAt [] with
    | some (g1, con, rest) => some ([], g1, con, rest)
    | none => none
  | c :: cs2 =>
    match numAt (c :: cs2) with
    | some (g1, con, rest) => some ([], g1, con, rest)
    | none =>
      if c = '\n' then none
      else
        match lazyGap numAt cs2 with
        | some (gap, g1, con, rest) => some (c :: gap, g1, con, rest)
        | none => none

/-- `re.finditer`: scan left to right, resuming after each match; `tryAt`
receives the previous character (for `\b`) and returns
`(group0, group1, rest)`. -/
def scanMatches
    (tryAt : Option Char → List Char → Option (List Char × List Char × List Char)) :
    Nat → Option Char → List Char → List (List Char × List Char)
  | 0, _, _ => []
  | fuel + 1, prev, cs =>
    match tryAt prev cs with
    | some (g0, g1, rest) =>
      (g0, g1) :: scanMatches tryAt fuel (g0.getLast? <|> prev) rest
    | none =>
      match cs with
      | [] => []
      | c :: cs2 => scanMatches tryAt fuel (some c) cs2

/-- Run a pattern over a whole text (ample fuel: every step consumes ≥ 1
character because every pattern starts with a non-empty keyword). -/
def runScan
    (tryAt : Option Char → List Char → Option (List Char × List Char × List Char))
    (cs : List Char) : List (List Char × List Char) :=
  scanMatches tryAt (cs.length + 1) none cs

/-- `(?:\.\d{1,2})?` after a digit run (used by the GPA pattern twice). -/
def fracUpTo2 (cs : List Char) : List Char × List Char :=
  match cs with
  | '.' :: rest =>
    let (d, r) := takeDigitsUpTo 2 rest
    if d.isEmpty then ([], cs) else ('.' :: d, r)
  | _ => ([], cs)

/-- `(?:\s*/\s*\d{1,2}(?:\.\d{1,2})?)?` — the optional GPA denominator. -/
def gpaDenAt (cs : List Char) : List Char × List Char :=
  let (ws1, r1) := cs.span Char.isWhitespace
  match r1 with
  | '/' :: r2 =>
    let (ws2, r3) := r2.span Char.isWhitespace
    let (d1, r4) := takeDigitsUpTo 2 r3
    if d1.isEmpty then ([], cs)
    else
      let (frac, r5) := fracUpTo2 r4
      (ws1 ++ '/' :: ws2 ++ d1 ++ frac, r5)
  | _ => ([], cs)

/-- `(\d{1,2}(?:\.\d{1,2})?)(?:\s*/\s*\d{1,2}(?:\.\d{1,2})?)?` — the GPA
number: returns `(group1, consumed, rest)`. -/
def gpaNumAt (cs : List Char) : Option (List Char × List Char × List Char) :=
  let (d1, r1) := takeDigitsUpTo 2 cs
  if d1.isEmpty then none
  else
    let (frac, r2) := fracUpTo2 r1
    let g1 := d1 ++ frac
    let (den, r3) := gpaDenAt r2
    some (g1, g1 ++ den, r3)

/-- `grade\s+point\s+average\b` (second alternative of the GPA keyword). -/
def kwGradeAt (cs : List Char) : Option (List Char × List Char) :=
  match matchCIpre "grade".toList cs with
  | none => none
  | some (g1, r1) =>
    match matchWs1 r1 with
    | none => none
    | some (w1, r2) =>
      match matchCIpre "point".toList r2 with
      | none => none
      | some (g2, r3) =>
        match matchWs1 r3 with
        | none => none
        | some (w2, r4) =>
          match matchCIpre "average".toList r4 with
          | none => none
          | some (g3, r5) =>
            if boundaryAfterWord r5 then some (g1 ++ w1 ++ g2 ++ w2 ++ g3, r5)
            else none

/-- `(?:gpa|grade\s+point\s+average)\b` — alternation tried left to right. -/
def kwGpaAt (cs : List Char) : Option (List Char × List Char) :=
  match matchCIpre "gpa".toList cs with
  | some (g, r) => if boundaryAfterWord r then some (g, r) else kwGradeAt cs
  | none => kwGradeAt cs

/-- The full `_GPA_PATTERN` at one position. -/
def tryGpaAt (prev : Option Char) (cs : List Char) :
    Option (List Char × List Char × List Char) :=
  if !(boundaryBefore prev) then none
  else
    match kwGpaAt cs with
    | none => none
    | some (kw, r1) =>
      match lazyGap gpaNumAt r1 with
      | none => none
      | some (gap, g1, con, rest) => some (kw ++ gap ++ con, g1, rest)

/-- `(\d{2,3})` — the TOEFL number. -/
def toeflNumAt (cs : List Char) : Option (List Char × List Char × List Char) :=
  let (d, r) := takeDigitsUpTo 3 cs
  if 2 ≤ d.length then some (d, d, r) else none

/-- The full `_TOEFL_PATTERN` (`\btoefl\b.*?(\d{2,3})`) at one position. -/
def tryToeflAt (prev : Option Char) (cs : List Char) :
    Option (List Char × List Char × List Char) :=
  if !(boundaryBefore prev) then none
  else
    match matchCIpre "toefl".toList cs with
    | none => none
    | some (kw, r1) =>
      if !(boundaryAfterWord r1) then none
      else
        match lazyGap toeflNumAt r1 with
        | none => none
        | some (gap, g1, con, rest) => some (kw ++ gap ++ con, g1, rest)

/-- `(\d(?:\.\d)?)` — the IELTS number. -/
def ieltsNumAt (cs : List Char) : Option (List Char × List Char × List Char) :=
  match cs with
  | c :: r =>
    if c.isDigit then
      match r with
      | '.' :: d :: r2 =>
        if d.isDigit then some ([c, '.', d], [c, '.', d], r2)
        else some ([c], [c], r)
      | _ => some ([c], [c], r)
    else none
  | [] => none

/-- The full `_IELTS_PATTERN` (`\bielts\b.*?(\d(?:\.\d)?)`) at one position. -/
def tryIeltsAt (prev : Option Char) (cs : List Char) :
    Option (List Char × List Char × List Char) :=
  if !(boundaryBefore prev) then none
  else
    match matchCIpre "ielts".toList cs with
    | none => none
    | some (kw, r1) =>
      if !(boundaryAfterWord r1) then none
      else
        match lazyGap ieltsNumAt r1 with
        | none => none
        | some (gap, g1, con, rest) => some (kw ++ gap ++ con, g1, rest)

/-- `(\d{3})\b` — the GRE number (exactly three digits ending at a word
boundary). -/
def greNumAt (cs : List Char) : Option (List Char × List Char × List Char) :=
  let (d, r) := takeDigitsUpTo 3 cs
  if d.length = 3 && boundaryAfterWord r then some (d, d, r) else none

/-- The full `_GRE_SCORE_PATTERN` (`\bgre\b.*?(\d{3})\b`) at one position. -/
def tryGreAt (prev : Option Char) (cs : List Char) :
    Option (List Char × List Char × List Char) :=
  if !(boundaryBefore prev) then none
  else
    match matchCIpre "gre".toList cs with
    | none => none
    | some (kw, r1) =>
      if !(boundaryAfterWord r1) then none
      else
        match lazyGap greNumAt r1 with
        | none => none
        | some (gap, g1, con, rest) => some (kw ++ gap ++ con, g1, rest)

/-- `(?:per\s+(?:semester|year|credit))?` — the optional tuition tail. -/
def tuitionPerAt (cs : List Char) : List Char × List Char :=
  match matchCIpre "per".toList cs with
  | none => ([], cs)
  | some (p, r1) =>
    match matchWs1 r1 with
    | none => ([], cs)
    | some (w, r2) =>
      match matchCIpre "semester".toList r2 with
      | some (s, r3) => (p ++ w ++ s, r3)
      | none =>
        match matchCIpre "year".toList r2 with
        | some (s, r3) => (p ++ w ++ s, r3)
        | none =>
          match matchCIpre "credit".toList r2 with
          | some (s, r3) => (p ++ w ++ s, r3)
          | none => ([], cs)

/-- The full `_TUITION_PATTERN`
(`\$\s*([\d,]+)(?:\.\d+)?\s*(?:per\s+(?:semester|year|credit))?`). -/
def tryTuitionAt (_prev : Option Char) (cs : List Char) :
    Option (List Char × List Char × List Char) :=
  match cs with
  | '$' :: r1 =>
    let (ws1, r2) := r1.span Char.isWhitespace
    let (num, r3) := r2.span fun c => c.isDigit || c = ','
    if num.isEmpty then none
    else
      let (fracC, r4) :=
        match r3 with
        | '.' :: rest1 =>
          let (d, r5) := rest1.span Char.isDigit
          if d.isEmpty then (([] : List Char), r3) else ('.' :: d, r5)
        | _ => ([], r3)
      let (ws2, r6) := r4.span Char.isWhitespace
      let (per, r7) := tuitionPerAt r6
      some ('$' :: (ws1 ++ num ++ fracC ++ ws2 ++ per), num, r7)
  | _ => none

/-- `m.group(0)[:80]` as a `String`. -/
def snip80 (g0 : List Char) : String := String.mk (g0.take 80)

/-- `sanity_check.py::check_chunk` — run the five rule scans in source order
and collect the warnings each produces. -/
def check_chunk (chunk_text : String) : List SanityWarning :=
  let text := chunk_text.toList
  let gpa := (runScan tryGpaAt text).filterMap fun m =>
    match parseHundredths m.2 with
    | none => none
    | some h =>
      if 450 < h then
        some { rule := "gpa_out_of_range", matched_text := snip80 m.1,
               reason := "偵測到 GPA " ++ fmtFloat h ++
                 "，超出美國制 4.0/4.3 scale 的合理上限（4.5）。" ++
                 "可能是爬取錯誤或非美國制成績格式（如百分制）混入。" }
      else if h = 0 then
        some { rule := "gpa_zero", matched_text := snip80 m.1,
               reason := "偵測到 GPA 為 0.0，可能是佔位符或解析錯誤。" }
      else none
  let toefl := (runScan tryToeflAt text).filterMap fun m =>
    match parseHundredths m.2 with
    | none => none
    | some h =>
      if 12000 < h then
        some { rule := "toefl_out_of_range", matched_text := snip80 m.1,
               reason := "偵測到 TOEFL 分數 " ++ fmtFloat h ++
                 "，超出 iBT 滿分 120 分。" ++
                 "可能是舊版 PBT 分數（577 分制）被錯誤標記為 iBT。" }
      else none
  let ielts := (runScan tryIeltsAt text).filterMap fun m =>
    match parseHundredths m.2 with
    | none => none
    | some h =>
      if 900 < h then
        some { rule := "ielts_out_of_range", matched_text := snip80 m.1,
               reason := "偵測到 IELTS 分數 " ++ fmtFloat h ++ "，超出滿分 9.0。" }
      else none
  let gre := (runScan tryGreAt text).filterMap fun m =>
    match parseHundredths m.2 with
    | none => none
    | some h =>
      if 34000 < h ∨ h < 13000 then
        some { rule := "gre_out_of_range", matched_text := snip80 m.1,
               reason := "偵測到 GRE 數值 " ++ fmtFloat h ++
                 "，不在已知合理範圍內（單科 130–170，總分 260–340）。" }
      else none
  let tuition := (runScan tryTuitionAt text).filterMap fun m =>
    match parseHundredths m.2 with
    | none => none
    | some h =>
      if 10000000 < h then
        some { rule := "tuition_suspiciously_high", matched_text := snip80 m.1,
               reason := "偵測到費用 $" ++ fmtComma h ++
                 "，單筆超過 $100,000。可能是全年/多年學費或解析格式錯誤。" }
      else none
  gpa ++ toefl ++ ielts ++ gre ++ tuition

/-- `sanity_check.py::annotate_results` — write `sanity_warnings` into every
result and, when warnings fired, prepend the visible flag block to
`chunk_text` (the Python in-place mutation of each ephemeral dict, modelled
functionally on the request-scoped copies). -/
def annotate_results (results : List Doc) : List Doc :=
  results.map fun res =>
    let warnings := check_chunk res.chunk_text
    if warnings.isEmpty then { res with sanity_warnings := some [] }
    else
      let warning_strs := warnings.map fun w => "[" ++ w.rule ++ "] " ++ w.reason
      let flag_block := "\n⚠️ [資料可疑，請重新搜尋或謹慎引用]\n" ++
        String.intercalate "\n" (warning_strs.map fun s => "  - " ++ s) ++ "\n"
      { res with sanity_warnings := some warning_strs,
                 chunk_text := flag_block ++ res.chunk_text }

/-- C7: `check_chunk` flags GPA 9.2 as out of range, leaves GPA 3.7 alone,
flags TOEFL 130 as out of range, and leaves TOEFL 100 alone. -/
theorem check_chunk_gpa_toefl_examples :
    (check_chunk "GPA: 9.2").map SanityWarning.rule = ["gpa_out_of_range"] ∧
    check_chunk "GPA: 3.7" = [] ∧
    (check_chunk "TOEFL 130").map SanityWarning.rule = ["toefl_out_of_range"] ∧
    check_chunk "TOEFL 100" = [] := by
  refine ⟨?_, ?_, ?_, ?_⟩ <;> decide

/-! ### chunker.py — page-type-aware segmentation -/

/-- `chunker.py::_PAGE_TYPE_SIZES` with the `_DEFAULT_CHUNK_SIZE` fallback of
`dict.get`. -/
def pageTypeSize (page_type : String) : Nat :=
  if page_type = "faq" then 2000
  else if page_type = "checklist" then 1200
  else if page_type = "requirements" then 1200
  else if page_type = "admissions" then 1600
  else if page_type = "apply" then 1600
  else if page_type = "accepting" then 1400
  else if page_type = "reddit" then 900
  else if page_type = "general" then 1400
  else 1400

/-- Python `str.strip()` on a character list. -/
def stripChars (cs : List Char) : List Char :=
  ((cs.dropWhile Char.isWhitespace).reverse.dropWhile Char.isWhitespace).reverse

/-- Modelled from the spec: the generic window splitter used by
`chunker.py::_make_splitter` is langchain's `RecursiveCharacterTextSplitter`,
a third-party dependency whose code is not in the repository; the spec (§4.1)
describes it as "recursively split on a separator hierarchy … to build greedy
windows ≤ target_size with the configured overlap between consecutive
windows".  Modelled as greedy character windows of at most `size` characters
advancing by `step = size − overlap`; an input of at most `size` characters is
returned unchanged as a single window. -/
def splitWindowsAux (size step : Nat) : Nat → List Char → List (List Char)
  | 0, cs => [cs]
  | fuel + 1, cs =>
    if cs.length ≤ size then [cs]
    else cs.take size :: splitWindowsAux size step fuel (cs.drop (max 1 step))

def splitWindows (size step : Nat) (cs : List Char) : List (List Char) :=
  splitWindowsAux size step cs.length cs

/-- `chunker.py::_make_splitter(page_type).split_text`: window size from
`_PAGE_TYPE_SIZES`, `overlap = max(150, int(size * 0.20))`. -/
def splitText (page_type : String) (cs : List Char) : List (List Char) :=
  let size := pageTypeSize page_type
  let overlap := max 150 (size * 20 / 100)
  splitWindows size (size - overlap) cs

/-- The interrogative words of `_FAQ_SPLIT_RE` (case-sensitive: the pattern is
compiled only with `re.MULTILINE`). -/
def faqWords : List String :=
  ["Do", "Does", "Is", "Are", "Can", "Will", "Should", "How", "What", "Where",
   "When", "Why", "Who", "Which", "If", "Am", "Was", "Were", "Has", "Have",
   "Had", "Would", "Could", "May", "Must", "Shall"]

/-- Case-sensitive literal prefix match, returning the rest. -/
def matchPre : List Char → List Char → Option (List Char)
  | [], cs => some cs
  | _ :: _, [] => none
  | p :: ps, c :: cs => if c = p then matchPre ps cs else none

/-- The lookahead `(?=(?:Do|Does|…)\s)` of `_FAQ_SPLIT_RE`. -/
def faqLookahead (cs : List Char) : Bool :=
  faqWords.any fun w =>
    match matchPre w.toList cs with
    | some (c :: _) => c.isWhitespace
    | some [] => false
    | none => false

/-- `.`, `?` or `!` — the lookbehind class `(?<=[.?!])` of `_FAQ_SPLIT_RE`. -/
def isSentencePunct (c : Char) : Bool := c = '.' || c = '?' || c = '!'

/-- `re.split(_FAQ_SPLIT_RE, text)`: scan left to right; at a position whose
previous character is sentence punctuation, greedily consume `\s*` and check
the interrogative lookahead; a match ends the current piece (the consumed
whitespace is dropped, being the split separator).  A zero-width match splits
and then advances one character, as `re.split` does.  `buf` holds the current
piece reversed. -/
def faqSplitAux : Nat → List Char → Option Char → List Char → List (List Char)
  | 0, buf, _, rest => [buf.reverse ++ rest]
  | _ + 1, buf, _, [] => [buf.reverse]
  | fuel + 1, buf, prev, c :: cs =>
    if (match prev with | some p => isSentencePunct p | none => false) then
      let (ws, r) := (c :: cs).span Char.isWhitespace
      if faqLookahead r then
        if ws.isEmpty then buf.reverse :: faqSplitAux fuel [c] (some c) cs
        else buf.reverse :: faqSplitAux fuel [] ws.getLast? r
      else faqSplitAux fuel (c :: buf) (some c) cs
    else faqSplitAux fuel (c :: buf) (some c) cs

/-- `re.split(_FAQ_SPLIT_RE, text)` over a whole text (ample fuel: every step
consumes at least one character). -/
def faqSplitRe (cs : List Char) : List (List Char) :=
  faqSplitAux (cs.length + 1) [] none cs

/-- The merge loop of `_split_faq_pairs`: strip each raw piece, drop empty
ones, merge pieces shorter than 80 characters into the pending buffer
(`buffer = (buffer + " " + part).strip()`), emit the pending buffer when a
long piece arrives, and flush the buffer at the end. -/
def mergeShortAux : List (List Char) → List Char → List (List Char)
  | [], buffer => if buffer.isEmpty then [] else [buffer]
  | part :: rest, buffer =>
    let part := stripChars part
    if part.isEmpty then mergeShortAux rest buffer
    else if part.length < 80 then
      mergeShortAux rest (stripChars (buffer ++ ' ' :: part))
    else if buffer.isEmpty then mergeShortAux rest part
    else buffer :: mergeShortAux rest part

/-- `chunker.py::_split_faq_pairs`: regex-split into candidate Q&A pairs,
merge short fragments, then re-split any pair still longer than the FAQ
chunk size with the generic splitter. -/
def splitFaqPairs (cs : List Char) : List (List Char) :=
  let pairs := mergeShortAux (faqSplitRe cs) []
  pairs.foldr (fun p acc =>
    (if pageTypeSize "faq" < p.length then splitText "faq" p else [p]) ++ acc) []

/-- `chunker.py::chunk_text`: empty or whitespace-only input yields `[]`; FAQ
pages go through `_split_faq_pairs`, everything else through the generic
splitter; chunks whose stripped length is under 60 are dropped. -/
def chunk_text (text : String) (page_type : String) : List String :=
  let cs := text.toList
  if (stripChars cs).isEmpty then []
  else
    let t := stripChars cs
    let chunks := if page_type = "faq" then splitFaqPairs t else splitText page_type t
    (chunks.filter fun c => 60 ≤ (stripChars c).length).map String.mk

theorem head_dropWhile_not (p : Char → Bool) (l : List Char) :
    ∀ c, (l.dropWhile p).head? = some c → p c = false := by
  induction l with
  | nil => intro c h; simp at h
  | cons a l ih =>
    intro c h
    by_cases ha : p a
    · rw [List.dropWhile_cons, if_pos ha] at h
      exact ih c h
    · rw [List.dropWhile_cons, if_neg ha] at h
      injection h with h
      rw [← h]
      exact Bool.eq_false_iff.mpr ha

theorem dropWhile_eq_self_of_head_not (p : Char → Bool) (l : List Char)
    (h : ∀ c, l.head? = some c → p c = false) : l.dropWhile p = l := by
  cases l with
  | nil => rfl
  | cons a l =>
    rw [List.dropWhile_cons, if_neg]
    rw [h a rfl]
    simp

theorem dropWhile_dropWhile (p : Char → Bool) (l : List Char) :
    (l.dropWhile p).dropWhile p = l.dropWhile p :=
  dropWhile_eq_self_of_head_not p _ (head_dropWhile_not p l)

theorem getLast?_dropWhile (p : Char → Bool) (l : List Char) :
    l.dropWhile p = [] ∨ (l.dropWhile p).getLast? = l.getLast? := by
  induction l with
  | nil => exact Or.inl rfl
  | cons a l ih =>
    by_cases ha : p a
    · rw [List.dropWhile_cons, if_pos ha]
      rcases ih with h | h
      · exact Or.inl h
      · cases l with
        | nil => exact Or.inl rfl
        | cons b l2 =>
          right
          rw [h, List.getLast?_cons_cons]
    · rw [List.dropWhile_cons, if_neg ha]
      exact Or.inr rfl

theorem stripChars_idem (cs : List Char) : stripChars (stripChars cs) = stripChars cs := by
  have h1 : (stripChars cs).dropWhile Char.isWhitespace = stripChars cs := by
    apply dropWhile_eq_self_of_head_not
    intro c hc
    rw [show stripChars cs =
      ((cs.dropWhile Char.isWhitespace).reverse.dropWhile Char.isWhitespace).reverse
      from rfl, List.head?_reverse] at hc
    rcases getLast?_dropWhile Char.isWhitespace
        (cs.dropWhile Char.isWhitespace).reverse with h | h
    · rw [h] at hc
      simp at hc
    · rw [h, List.getLast?_reverse] at hc
      exact head_dropWhile_not Char.isWhitespace cs c hc
  show ((stripChars cs |>.dropWhile Char.isWhitespace).reverse.dropWhile
      Char.isWhitespace).reverse = stripChars cs
  rw [h1, show stripChars cs =
    ((cs.dropWhile Char.isWhitespace).reverse.dropWhile Char.isWhitespace).reverse
    from rfl, List.reverse_reverse, dropWhile_dropWhile]

theorem splitWindows_of_le (size step : Nat) (cs : List Char)
    (h : cs.length ≤ size) : splitWindows size step cs = [cs] := by
  unfold splitWindows
  cases hl : cs.length with
  | zero => rfl
  | succ n => rw [splitWindowsAux, if_pos h]

theorem pageTypeSize_ge (page_type : String) : 900 ≤ pageTypeSize page_type := by
  unfold pageTypeSize
  repeat' split
  all_goals omega

/-- C6 (amended): `chunk_text` returns `[]` on empty/whitespace-only input;
for a non-FAQ page type it returns exactly one chunk — the stripped text —
when the stripped length lies in `[60, target_size]`, and `[]` (not one
chunk) when the stripped input is shorter than the 60-character noise floor. -/
theorem chunk_text_empty_short_single
    (text : String) (page_type : String) :
    ((stripChars text.toList).isEmpty = true → chunk_text text page_type = []) ∧
    (page_type ≠ "faq" → 60 ≤ (stripChars text.toList).length →
      (stripChars text.toList).length ≤ pageTypeSize page_type →
      chunk_text text page_type = [String.mk (stripChars text.toList)]) ∧
    (page_type ≠ "faq" → (stripChars text.toList).length < 60 →
      chunk_text text page_type = []) := by
  refine ⟨?_, ?_, ?_⟩
  · intro h
    unfold chunk_text
    rw [if_pos h]
  · intro hfaq hlow hhigh
    unfold chunk_text
    rw [if_neg (by
      intro he
      rw [List.isEmpty_iff] at he
      rw [he] at hlow
      simp at hlow)]
    simp only [if_neg hfaq]
    unfold splitText
    rw [splitWindows_of_le _ _ _ hhigh]
    simp only [String.toList] at hlow
    simp [stripChars_idem, hlow]
  · intro hfaq hshort
    by_cases he : (stripChars text.toList).isEmpty = true
    · unfold chunk_text
      rw [if_pos he]
    · unfold chunk_text
      rw [if_neg he]
      simp only [if_neg hfaq]
      unfold splitText
      rw [splitWindows_of_le _ _ _
        (le_trans (le_of_lt hshort) (le_trans (by omega) (pageTypeSize_ge page_type)))]
      have hn : ¬ (60 ≤ (stripChars text.toList).length) := by omega
      simp only [String.toList] at hn
      simp [stripChars_idem, hn]

/-- Witness for C6 (amended) at a concrete input: a 71-character "general"
page yields exactly one chunk. -/
theorem chunk_text_empty_short_single_witness :
    ((stripChars ("" : String).toList).isEmpty = true →
      chunk_text "" "general" = []) ∧
    (("general" : String) ≠ "faq" →
      60 ≤ (stripChars ("This program requires three letters of recommendation and a statement." : String).toList).length →
      (stripChars ("This program requires three letters of recommendation and a statement." : String).toList).length ≤ pageTypeSize "general" →
      chunk_text "This program requires three letters of recommendation and a statement." "general" =
        [String.mk (stripChars ("This program requires three letters of recommendation and a statement." : String).toList)]) ∧
    (("general" : String) ≠ "faq" →
      (stripChars ("This program requires three letters of recommendation and a statement." : String).toList).length < 60 →
      chunk_text "This program requires three letters of recommendation and a statement." "general" = []) :=
  ⟨(chunk_text_empty_short_single "" "general").1,
   (chunk_text_empty_short_single
      "This program requires three letters of recommendation and a statement." "general").2.1,
   (chunk_text_empty_short_single
      "This program requires three letters of recommendation and a statement." "general").2.2⟩

/-- A concrete FAQ page: two well-separated interrogative sentences, each at
least 80 characters, total under the 2000-character FAQ bound. -/
def faqEx : String :=
  "Do you require the GRE for admission to the graduate program in computer science this year? " ++
  "Do we need to submit official transcripts before the application deadline in December too?"

/-- Counterexample to C6 as stated: a non-empty input shorter than its
`target_size` need not yield exactly one chunk — `"hello"` (5 < 1400
characters) is dropped by the 60-character noise floor and yields zero
chunks, and a 184-character FAQ page (shorter than the 2000-character FAQ
target) splits into two Q&A chunks. -/
theorem chunk_text_short_counterexample :
    ("hello" : String) ≠ "" ∧
    ("hello" : String).toList.length = 5 ∧
    pageTypeSize "general" = 1400 ∧
    chunk_text "hello" "general" = [] ∧
    faqEx.toList.length ≤ pageTypeSize "faq" ∧
    (chunk_text faqEx "faq").length = 2 := by
  refine ⟨by decide, by decide, by decide, by decide, by decide, by decide⟩

/-! ### pipeline.py / store.py — the vector-store upsert -/

/-- One row of the `document_chunks` table.  `embedding` keeps the vector
itself (the `str(emb)` serialisation in the source is injective on vectors);
`metadata` keeps the three `meta_base` keys that `json.dumps` serialises. -/
structure ChunkRow where
  university_id : Nat
  page_id : Nat
  school_id : String
  source_url : String
  page_type : String
  chunk_index : Nat
  chunk_text : String
  embedding : List ℚ
  metadata : List (String × String)
deriving DecidableEq, Repr

abbrev ChunkTable := List ChunkRow

/-- The `(page_id, chunk_index)` unique-key comparison of the INSERT's
`ON CONFLICT` clause. -/
def keyEq (r row : ChunkRow) : Bool :=
  row.page_id == r.page_id && row.chunk_index == r.chunk_index

/-- `INSERT … ON CONFLICT (page_id, chunk_index) DO UPDATE SET chunk_text,
embedding, metadata`: update the row with the conflicting key if present,
else append the new row. -/
def insertOnConflict (r : ChunkRow) (t : ChunkTable) : ChunkTable :=
  if t.any (keyEq r) then
    t.map fun row =>
      if keyEq r row then
        { row with chunk_text := r.chunk_text, embedding := r.embedding,
                   metadata := r.metadata }
      else row
  else t ++ [r]

/-- The `for idx, (text, emb) in enumerate(zip(chunks, embeddings))` loop
body building one row per chunk, indices counting up from `idx`. -/
def mkChunkRows (university_id page_id : Nat)
    (school_id source_url page_type : String) (meta : List (String × String)) :
    Nat → List (String × List ℚ) → List ChunkRow
  | _, [] => []
  | idx, (text, emb) :: ps =>
    { university_id := university_id, page_id := page_id, school_id := school_id,
      source_url := source_url, page_type := page_type, chunk_index := idx,
      chunk_text := text, embedding := emb, metadata := meta } ::
      mkChunkRows university_id page_id school_id source_url page_type meta
        (idx + 1) ps

/-- `pipeline.py::upsert_chunks`: nothing happens for an empty chunk list;
otherwise all old rows of the page are deleted and the new rows inserted,
returning the written count (`len(chunks)`). -/
def upsert_chunks (university_id page_id : Nat)
    (school_id source_url page_type : String) (chunks : List String)
    (embeddings : List (List ℚ)) (t : ChunkTable) : ChunkTable × Nat :=
  if chunks.isEmpty then (t, 0)
  else
    let t1 := t.filter fun row => row.page_id != page_id
    let meta := [("school_id", school_id), ("page_type", page_type),
                 ("source_url", source_url)]
    let newRows := mkChunkRows university_id page_id school_id source_url
      page_type meta 0 (chunks.zip embeddings)
    (newRows.foldl (fun acc r => insertOnConflict r acc) t1, chunks.length)

/-- `store.py::upsert_chunks_by_page`: the same delete-then-insert logic as
`pipeline.py::upsert_chunks` (plus a `conn.commit()`, which does not change
the stored rows). -/
def upsert_chunks_by_page (university_id page_id : Nat)
    (school_id source_url page_type : String) (chunks : List String)
    (embeddings : List (List ℚ)) (t : ChunkTable) : ChunkTable × Nat :=
  upsert_chunks university_id page_id school_id source_url page_type chunks
    embeddings t

theorem insertOnConflict_fresh (r : ChunkRow) (t : ChunkTable)
    (h : ∀ row ∈ t, keyEq r row = false) :
    insertOnConflict r t = t ++ [r] := by
  unfold insertOnConflict
  rw [if_neg]
  intro hany
  obtain ⟨row, hrow, hk⟩ := List.any_eq_true.mp hany
  rw [h row hrow] at hk
  exact Bool.false_ne_true hk

theorem mkChunkRows_page_id (university_id page_id : Nat)
    (school_id source_url page_type : String) (meta : List (String × String))
    (start : Nat) (ps : List (String × List ℚ)) :
    ∀ r ∈ mkChunkRows university_id page_id school_id source_url page_type meta
      start ps, r.page_id = page_id ∧ start ≤ r.chunk_index := by
  induction ps generalizing start with
  | nil => intro r hr; simp [mkChunkRows] at hr
  | cons p ps ih =>
    intro r hr
    obtain ⟨text, emb⟩ := p
    rw [mkChunkRows] at hr
    rcases List.mem_cons.mp hr with rfl | hr
    · exact ⟨rfl, le_refl _⟩
    · obtain ⟨h1, h2⟩ := ih (start + 1) r hr
      exact ⟨h1, by omega⟩

theorem foldl_insertOnConflict_fresh (rows : List ChunkRow) (t : ChunkTable)
    (h : ∀ r ∈ rows, ∀ row ∈ t, keyEq r row = false)
    (hp : List.Pairwise (fun a b => keyEq b a = false) rows) :
    rows.foldl (fun acc r => insertOnConflict r acc) t = t ++ rows := by
  induction rows generalizing t with
  | nil => simp
  | cons r rest ih =>
    rw [List.pairwise_cons] at hp
    obtain ⟨hr, hrest⟩ := hp
    rw [List.foldl_cons, insertOnConflict_fresh r t (h r (List.mem_cons_self r rest))]
    rw [ih (t ++ [r]) ?_ hrest]
    · simp
    · intro a ha row hrow
      rcases List.mem_append.mp hrow with hrow | hrow
      · exact h a (List.mem_cons_of_mem r ha) row hrow
      · rcases List.mem_singleton.mp hrow with rfl
        exact hr a ha

theorem mkChunkRows_pairwise (university_id page_id : Nat)
    (school_id source_url page_type : String) (meta : List (String × String))
    (start : Nat) (ps : List (String × List ℚ)) :
    List.Pairwise (fun a b => keyEq b a = false)
      (mkChunkRows university_id page_id school_id source_url page_type meta
        start ps) := by
  induction ps generalizing start with
  | nil => exact List.Pairwise.nil
  | cons p ps ih =>
    obtain ⟨text, emb⟩ := p
    rw [mkChunkRows]
    refine List.Pairwise.cons ?_ (ih (start + 1))
    intro b hb
    obtain ⟨_, hidx⟩ := mkChunkRows_page_id university_id page_id school_id
      source_url page_type meta (start + 1) ps b hb
    simp only [keyEq, Bool.and_eq_false_iff]
    right
    simp only [beq_eq_false_iff_ne, ne_eq]
    omega

theorem mkChunkRows_map_text (university_id page_id : Nat)
    (school_id source_url page_type : String) (meta : List (String × String))
    (start : Nat) (ps : List (String × List ℚ)) :
    (mkChunkRows university_id page_id school_id source_url page_type meta
      start ps).map ChunkRow.chunk_text = ps.map Prod.fst := by
  induction ps generalizing start with
  | nil => rfl
  | cons p ps ih =>
    obtain ⟨text, emb⟩ := p
    rw [mkChunkRows, List.map_cons, List.map_cons, ih]

theorem mkChunkRows_map_index (university_id page_id : Nat)
    (school_id source_url page_type : String) (meta : List (String × String))
    (start : Nat) (ps : List (String × List ℚ)) :
    (mkChunkRows university_id page_id school_id source_url page_type meta
      start ps).map ChunkRow.chunk_index = List.range' start ps.length := by
  induction ps generalizing start with
  | nil => rfl
  | cons p ps ih =>
    obtain ⟨text, emb⟩ := p
    rw [mkChunkRows, List.map_cons, List.length_cons, List.range'_succ,
      ih (start + 1)]

theorem filter_ne_of_mkChunkRows (university_id page_id : Nat)
    (school_id source_url page_type : String) (meta : List (String × String))
    (start : Nat) (ps : List (String × List ℚ)) :
    (mkChunkRows university_id page_id school_id source_url page_type meta
      start ps).filter (fun row => row.page_id != page_id) = [] := by
  rw [List.filter_eq_nil_iff]
  intro r hr
  obtain ⟨h1, _⟩ := mkChunkRows_page_id university_id page_id school_id
    source_url page_type meta start ps r hr
  simp [h1]

theorem upsert_once_eq (university_id page_id : Nat)
    (school_id source_url page_type : String) (chunks : List String)
    (embeddings : List (List ℚ)) (t : ChunkTable) (hc : ¬ chunks.isEmpty = true) :
    (upsert_chunks university_id page_id school_id source_url page_type chunks
      embeddings t).1 =
      t.filter (fun row => row.page_id != page_id) ++
        mkChunkRows university_id page_id school_id source_url page_type
          [("school_id", school_id), ("page_type", page_type),
           ("source_url", source_url)] 0 (chunks.zip embeddings) := by
  unfold upsert_chunks
  rw [if_neg hc]
  apply foldl_insertOnConflict_fresh
  · intro r hr row hrow
    obtain ⟨hpr, _⟩ := mkChunkRows_page_id university_id page_id school_id
      source_url page_type _ 0 (chunks.zip embeddings) r hr
    obtain ⟨_, hne⟩ := List.mem_filter.mp hrow
    simp only [bne_iff_ne, ne_eq] at hne
    simp only [keyEq, Bool.and_eq_false_iff]
    left
    simp only [beq_eq_false_iff_ne, ne_eq]
    rw [hpr]
    exact hne
  · exact mkChunkRows_pairwise university_id page_id school_id source_url
      page_type _ 0 (chunks.zip embeddings)

theorem filter_eq_of_mkChunkRows (university_id page_id : Nat)
    (school_id source_url page_type : String) (meta : List (String × String))
    (start : Nat) (ps : List (String × List ℚ)) :
    (mkChunkRows university_id page_id school_id source_url page_type meta
      start ps).filter (fun row => row.page_id == page_id) =
      mkChunkRows university_id page_id school_id source_url page_type meta
        start ps := by
  rw [List.filter_eq_self]
  intro r hr
  obtain ⟨h1, _⟩ := mkChunkRows_page_id university_id page_id school_id
    source_url page_type meta start ps r hr
  simp [h1]

/-- C9: upserting the same `(page, chunk list, embeddings)` twice leaves the
table exactly as after the first call, and the stored rows of the page after
one upsert carry contiguous chunk indices `0 … n−1` and exactly the chunk
texts — no duplicates, no stale rows.  (`upsert_chunks_by_page` in `store.py`
is the same delete-then-insert logic.) -/
theorem upsert_chunks_idempotent
    (university_id page_id : Nat) (school_id source_url page_type : String)
    (chunks : List String) (embeddings : List (List ℚ)) (t : ChunkTable)
    (hlen : embeddings.length = chunks.length) :
    (upsert_chunks university_id page_id school_id source_url page_type chunks
        embeddings
        (upsert_chunks university_id page_id school_id source_url page_type
          chunks embeddings t).1).1 =
      (upsert_chunks university_id page_id school_id source_url page_type
        chunks embeddings t).1 ∧
    upsert_chunks_by_page university_id page_id school_id source_url page_type
        chunks embeddings t =
      upsert_chunks university_id page_id school_id source_url page_type
        chunks embeddings t ∧
    (chunks ≠ [] →
      ((upsert_chunks university_id page_id school_id source_url page_type
          chunks embeddings t).1.filter
          (fun row => row.page_id == page_id)).map ChunkRow.chunk_index =
        List.range chunks.length ∧
      ((upsert_chunks university_id page_id school_id source_url page_type
          chunks embeddings t).1.filter
          (fun row => row.page_id == page_id)).map ChunkRow.chunk_text =
        chunks) := by
  by_cases hc : chunks.isEmpty = true
  · refine ⟨?_, rfl, ?_⟩
    · unfold upsert_chunks
      rw [if_pos hc, if_pos hc]
    · intro hne
      rw [List.isEmpty_iff] at hc
      exact absurd hc hne
  · have hzip : (chunks.zip embeddings).length = chunks.length := by
      rw [List.length_zip, hlen, Nat.min_self]
    have honce := upsert_once_eq university_id page_id school_id source_url
      page_type chunks embeddings t hc
    refine ⟨?_, rfl, ?_⟩
    · rw [upsert_once_eq university_id page_id school_id source_url page_type
        chunks embeddings _ hc, honce]
      congr 1
      rw [List.filter_append,
        filter_ne_of_mkChunkRows university_id page_id school_id source_url
          page_type _ 0 (chunks.zip embeddings),
        List.append_nil, List.filter_eq_self.mpr]
      intro row hrow
      exact (List.mem_filter.mp hrow).2
    · intro _
      rw [honce, List.filter_append,
        filter_eq_of_mkChunkRows university_id page_id school_id source_url
          page_type _ 0 (chunks.zip embeddings)]
      have ht1 : (t.filter (fun row => row.page_id != page_id)).filter
          (fun row => row.page_id == page_id) = [] := by
        rw [List.filter_eq_nil_iff]
        intro row hrow
        obtain ⟨_, hne⟩ := List.mem_filter.mp hrow
        simp only [bne_iff_ne, ne_eq] at hne
        simp [hne]
      rw [ht1, List.nil_append]
      constructor
      · rw [mkChunkRows_map_index, hzip, List.range_eq_range']
      · rw [mkChunkRows_map_text, List.map_fst_zip]
        omega

/-- A pre-existing table for the C9 witness: one stale row of page 7 and one
row of another page. -/
def tableC9 : ChunkTable :=
  [{ university_id := 1, page_id := 7, school_id := "cmu", source_url := "u",
     page_type := "faq", chunk_index := 0, chunk_text := "stale",
     embedding := [9], metadata := [] },
   { university_id := 1, page_id := 8, school_id := "cmu", source_url := "v",
     page_type := "faq", chunk_index := 0, chunk_text := "other",
     embedding := [3], metadata := [] }]

/-- Witness for C9 at a concrete input: re-upserting two chunks for page 7
over a table holding a stale row is idempotent and leaves exactly the two new
rows with indices 0 and 1. -/
theorem upsert_chunks_idempotent_witness :
    (upsert_chunks 1 7 "cmu" "u" "faq" ["chunk a", "chunk b"] [[1], [2]]
        (upsert_chunks 1 7 "cmu" "u" "faq" ["chunk a", "chunk b"] [[1], [2]]
          tableC9).1).1 =
      (upsert_chunks 1 7 "cmu" "u" "faq" ["chunk a", "chunk b"] [[1], [2]]
        tableC9).1 ∧
    upsert_chunks_by_page 1 7 "cmu" "u" "faq" ["chunk a", "chunk b"] [[1], [2]]
        tableC9 =
      upsert_chunks 1 7 "cmu" "u" "faq" ["chunk a", "chunk b"] [[1], [2]]
        tableC9 ∧
    ((["chunk a", "chunk b"] : List String) ≠ [] →
      ((upsert_chunks 1 7 "cmu" "u" "faq" ["chunk a", "chunk b"] [[1], [2]]
          tableC9).1.filter (fun row => row.page_id == 7)).map
          ChunkRow.chunk_index = List.range (["chunk a", "chunk b"] : List String).length ∧
      ((upsert_chunks 1 7 "cmu" "u" "faq" ["chunk a", "chunk b"] [[1], [2]]
          tableC9).1.filter (fun row => row.page_id == 7)).map
          ChunkRow.chunk_text = ["chunk a", "chunk b"]) :=
  upsert_chunks_idempotent 1 7 "cmu" "u" "faq" ["chunk a", "chunk b"]
    [[1], [2]] tableC9 (by decide)

/-! ### multi_query.py — query expansion -/

/-- The dedup loop of `search_with_multi_query`: keep the first occurrence of
every `chunk_text`, threading the `seen_chunks` set. -/
def dedupAux (seen : List String) : List Doc → List Doc
  | [] => []
  | r :: rs =>
    if r.chunk_text ∈ seen then dedupAux seen rs
    else r :: dedupAux (r.chunk_text :: seen) rs

/-- `multi_query.py::search_with_multi_query`: run stage-1-only retrieval
(`use_rerank=False`, `top_k*2`) per generated query (`multi_queries` is the
list produced by `generate_multi_queries`, an external generation
collaborator), merge the pools deduplicating by exact `chunk_text`, then
either rerank the merged pool against the *original* query and truncate to
`top_k`, or sort by stored `vector_score` and truncate. -/
def search_with_multi_query (query : String) (multi_queries : List String)
    (embedFn : String → Except PyErr (List Vec)) (connOk : Bool)
    (storageErr : Option PyErr) (tableFor : String → List Doc)
    (scoreOf : String → String → ℚ) (top_k : Nat) (use_rerank : Bool) :
    Except PyErr (List Doc) := do
  let pools ← multi_queries.mapM fun q =>
    search_core q (embedFn q) connOk storageErr (tableFor q) scoreOf (top_k * 2)
      false none none
  let all_results := dedupAux [] pools.flatten
  if use_rerank = true ∧ ¬ all_results.isEmpty = true then
    return rerank scoreOf query all_results top_k
  else
    return (sortDescBy (fun d => d.vector_score) all_results).take top_k

theorem dedupAux_sublist (seen : List String) (l : List Doc) :
    List.Sublist (dedupAux seen l) l := by
  induction l generalizing seen with
  | nil => exact List.Sublist.refl _
  | cons r rs ih =>
    rw [dedupAux]
    split
    · exact (ih seen).cons r
    · exact (ih (r.chunk_text :: seen)).cons₂ r

theorem dedupAux_nodup (seen : List String) (l : List Doc) :
    ((dedupAux seen l).map Doc.chunk_text).Nodup ∧
      ∀ t ∈ (dedupAux seen l).map Doc.chunk_text, t ∉ seen := by
  induction l generalizing seen with
  | nil => exact ⟨List.nodup_nil, by simp [dedupAux]⟩
  | cons r rs ih =>
    rw [dedupAux]
    split
    · exact ih seen
    · rename_i hseen
      obtain ⟨hn, hd⟩ := ih (r.chunk_text :: seen)
      rw [List.map_cons]
      constructor
      · rw [List.nodup_cons]
        refine ⟨?_, hn⟩
        intro hmem
        exact hd _ hmem (List.mem_cons_self _ _)
      · intro t ht
        rcases List.mem_cons.mp ht with rfl | ht
        · exact hseen
        · intro hts
          exact hd t ht (List.mem_cons_of_mem _ hts)

theorem dedupAux_mem (seen : List String) (l : List Doc) (t : String)
    (ht : t ∈ l.map Doc.chunk_text) (hseen : t ∉ seen) :
    t ∈ (dedupAux seen l).map Doc.chunk_text := by
  induction l generalizing seen with
  | nil => simp at ht
  | cons r rs ih =>
    rw [dedupAux]
    rw [List.map_cons] at ht
    split
    · rename_i hin
      rcases List.mem_cons.mp ht with rfl | ht2
      · exact absurd hin hseen
      · exact ih seen ht2 hseen
    · rename_i hnin
      rw [List.map_cons]
      rcases List.mem_cons.mp ht with rfl | ht2
      · exact List.mem_cons_self _ _
      · by_cases hrt : t = r.chunk_text
        · rw [hrt]
          exact List.mem_cons_self _ _
        · refine List.mem_cons_of_mem _ (ih (r.chunk_text :: seen) ht2 ?_)
          intro hmem
          rcases List.mem_cons.mp hmem with h | h
          · exact hrt h
          · exact hseen h

theorem rerank_map_chunk_text_count (scoreOf : String → String → ℚ)
    (query : String) (documents : List Doc) (top_n : Nat) (t : String) :
    ((rerank scoreOf query documents top_n).map Doc.chunk_text).count t ≤
      (documents.map Doc.chunk_text).count t := by
  unfold rerank
  split
  · simp
  · rw [List.map_take]
    refine le_trans (List.Sublist.count_le (List.take_sublist _ _) t) ?_
    have hperm := (sortDescBy_perm rerankKey (documents.map fun d =>
      { d with rerank_score := some (scoreOf query d.chunk_text) })).map
      Doc.chunk_text
    rw [hperm.count_eq, List.map_map]
    have : (Doc.chunk_text ∘ fun d =>
        { d with rerank_score := some (scoreOf query d.chunk_text) }) =
        Doc.chunk_text := by
      funext d
      rfl
    rw [this]

/-- C8: with reranking enabled, `search_with_multi_query` returns exactly one
rerank pass — scored against the *original* query — over the merged,
first-seen-order, `chunk_text`-deduplicated pool, truncated to `top_k`; the
merged pool is an order-preserving sublist of the concatenated pools with
pairwise-distinct chunk texts covering every retrieved text, and any chunk
text retrieved by several paraphrase searches occurs at most once in the
output (exactly once when it survives truncation). -/
theorem search_with_multi_query_dedup_single_rerank
    (query : String) (multi_queries : List String)
    (embedFn : String → Except PyErr (List Vec)) (connOk : Bool)
    (storageErr : Option PyErr) (tableFor : String → List Doc)
    (scoreOf : String → String → ℚ) (top_k : Nat)
    (pools : List (List Doc))
    (hp : multi_queries.mapM (fun q => search_core q (embedFn q) connOk
      storageErr (tableFor q) scoreOf (top_k * 2) false none none) = .ok pools)
    (hne : ¬ (dedupAux [] pools.flatten).isEmpty = true) :
    search_with_multi_query query multi_queries embedFn connOk storageErr
        tableFor scoreOf top_k true =
      .ok (rerank scoreOf query (dedupAux [] pools.flatten) top_k) ∧
    List.Sublist (dedupAux [] pools.flatten) pools.flatten ∧
    ((dedupAux [] pools.flatten).map Doc.chunk_text).Nodup ∧
    (∀ t, t ∈ pools.flatten.map Doc.chunk_text ↔
      t ∈ (dedupAux [] pools.flatten).map Doc.chunk_text) ∧
    (∀ t, ((rerank scoreOf query (dedupAux [] pools.flatten) top_k).map
      Doc.chunk_text).count t ≤ 1) ∧
    (∀ t, t ∈ (rerank scoreOf query (dedupAux [] pools.flatten) top_k).map
        Doc.chunk_text →
      ((rerank scoreOf query (dedupAux [] pools.flatten) top_k).map
        Doc.chunk_text).count t = 1) := by
  have hcount1 : ∀ t, ((dedupAux [] pools.flatten).map Doc.chunk_text).count t ≤ 1 :=
    List.nodup_iff_count_le_one.mp (dedupAux_nodup [] pools.flatten).1
  have hout_le : ∀ t, ((rerank scoreOf query (dedupAux [] pools.flatten) top_k).map
      Doc.chunk_text).count t ≤ 1 := fun t =>
    le_trans (rerank_map_chunk_text_count scoreOf query _ top_k t) (hcount1 t)
  refine ⟨?_, dedupAux_sublist [] pools.flatten, (dedupAux_nodup [] pools.flatten).1,
    ?_, hout_le, ?_⟩
  · unfold search_with_multi_query
    simp only [bind, Except.bind, hp]
    rw [if_pos ⟨trivial, hne⟩]
    rfl
  · intro t
    constructor
    · intro ht
      exact dedupAux_mem [] pools.flatten t ht (List.not_mem_nil t)
    · intro ht
      exact List.Sublist.mem ht ((dedupAux_sublist [] pools.flatten).map _)
  · intro t ht
    exact le_antisymm (hout_le t) (List.count_pos_iff.mpr ht)

/-- Stored rows in ANN order for the first C8 witness query. -/
def tableQ1 : List Doc :=
  [{ chunk_text := "AAA", vector_score := 3 },
   { chunk_text := "BBB", vector_score := 2 }]

/-- Stored rows in ANN order for the second C8 witness query; `"BBB"` is
returned by both paraphrase searches. -/
def tableQ2 : List Doc :=
  [{ chunk_text := "BBB", vector_score := 5 },
   { chunk_text := "CCC", vector_score := 4 }]

/-- Per-query ANN tables for the C8 witness. -/
def tableForC8 : String → List Doc := fun q => if q = "q one" then tableQ1 else tableQ2

/-- Cross-encoder oracle for the C8 witness. -/
def scoreC8 : String → String → ℚ := fun _ t => if t = "CCC" then 9 else 1

/-- The two stage-1 pools produced by the C8 witness searches. -/
def poolsC8 : List (List Doc) := [tableQ1, tableQ2]

/-- Witness for C8 at a concrete input: two paraphrases whose pools share the
chunk `"BBB"`. -/
theorem search_with_multi_query_dedup_single_rerank_witness :
    search_with_multi_query "orig" ["q one", "q two"] (fun _ => .ok [[1]]) true
        none tableForC8 scoreC8 1 true =
      .ok (rerank scoreC8 "orig" (dedupAux [] poolsC8.flatten) 1) ∧
    List.Sublist (dedupAux [] poolsC8.flatten) poolsC8.flatten ∧
    ((dedupAux [] poolsC8.flatten).map Doc.chunk_text).Nodup ∧
    (∀ t, t ∈ poolsC8.flatten.map Doc.chunk_text ↔
      t ∈ (dedupAux [] poolsC8.flatten).map Doc.chunk_text) ∧
    (∀ t, ((rerank scoreC8 "orig" (dedupAux [] poolsC8.flatten) 1).map
      Doc.chunk_text).count t ≤ 1) ∧
    (∀ t, t ∈ (rerank scoreC8 "orig" (dedupAux [] poolsC8.flatten) 1).map
        Doc.chunk_text →
      ((rerank scoreC8 "orig" (dedupAux [] poolsC8.flatten) 1).map
        Doc.chunk_text).count t = 1) :=
  search_with_multi_query_dedup_single_rerank "orig" ["q one", "q two"]
    (fun _ => .ok [[1]]) true none tableForC8 scoreC8 1 poolsC8 (by decide)
    (by decide)

/-! ### agent.py — the bounded tool-calling agent loop

The generative model is an external collaborator, modelled as a pure oracle
`model : List Turn → Bool → ModelResp` mapping the accumulated turn history
and whether tools were passed (`tools=[_TOOLS]` vs no `tools` key) to the
parsed response parts: the function calls and the joined text parts. -/

/-- One parsed function call of a model response. -/
structure ToolCall where
  name : String
  args : List (String × String)
deriving DecidableEq, Repr

/-- A model response, decomposed as `run_agent` does: the `function_call`
parts and the joined `text` parts. -/
structure ModelResp where
  calls : List ToolCall
  text : String
deriving DecidableEq, Repr

/-- A turn of the `contents` history. -/
inductive Turn where
  | user (text : String)
  | model (resp : ModelResp)
  | tool (results : List String)
deriving DecidableEq, Repr

/-- The ambient collaborators of a `search_core` call made by a tool: the
embedding oracle, connection availability, a possible storage exception, the
per-query ANN-ordered table, and the cross-encoder oracle. -/
structure SearchEnv where
  embedFn : String → Except PyErr (List Vec)
  connOk : Bool
  storageErr : Option PyErr
  tableFor : String → List Doc
  scoreOf : String → String → ℚ

/-- Python `args.get(k)`. -/
def dictGet (args : List (String × String)) (k : String) : Option String :=
  (args.find? fun p => p.1 == k).map Prod.snd

/-- Python `args[k]` — raises `KeyError` when the key is absent. -/
def dictGetE (args : List (String × String)) (k : String) : Except PyErr String :=
  match dictGet args k with
  | some v => .ok v
  | none => .error (.keyError k)

/-- One `meta_parts` entry of `gemini.py::format_context_for_prompt`
(`if meta.get(k): parts.append(label + meta[k])` — Python truthiness: absent
and empty both skip). -/
def metaPart (meta : List (String × String)) (k : String) (label : String)
    (suffix : String) : List String :=
  match dictGet meta k with
  | some v => if v.isEmpty then [] else [label ++ v ++ suffix]
  | none => []

/-- Python truthiness of `meta.get(k)` for the `(必備)` markers. -/
def metaTruthy (meta : List (String × String)) (k : String) : Bool :=
  match dictGet meta k with
  | some v => !v.isEmpty
  | none => false

/-- One source block of `gemini.py::format_context_for_prompt`.  The rows
produced by `search_core` carry no `university` / `program` / `source` keys,
so `doc.get` always yields the defaults for those. -/
def formatDocBlock (i : Nat) (doc : Doc) : String :=
  let meta := doc.metadata
  let meta_parts :=
    if meta.isEmpty then []
    else
      metaPart meta "fall_deadline" "秋季截止日: " "" ++
      metaPart meta "spring_deadline" "春季截止日: " "" ++
      metaPart meta "minimum_gpa" "GPA 要求: " "" ++
      metaPart meta "toefl_min" "TOEFL 要求: "
        (if metaTruthy meta "toefl_required" then " (必備)" else "") ++
      metaPart meta "ielts_min" "IELTS 要求: "
        (if metaTruthy meta "ielts_required" then " (必備)" else "") ++
      metaPart meta "gre_status" "GRE 狀態: " "" ++
      metaPart meta "recommendation_letters" "推薦信需求: " " 封" ++
      metaPart meta "interview_required" "面試需求: " ""
  let meta_text :=
    if meta_parts.isEmpty then "無結構化資訊"
    else String.intercalate " | " meta_parts
  "--- 來源 " ++ toString (i + 1) ++ " (未知大學 / 未知系所 / 來源: official) ---\n" ++
    "[結構化資訊] " ++ meta_text ++ "\n" ++
    "[詳細描述] " ++ doc.chunk_text

/-- `gemini.py::format_context_for_prompt`. -/
def format_context_for_prompt (context_docs : List Doc) : String :=
  String.intercalate "\n\n" (context_docs.enum.map fun p => formatDocBlock p.1 p.2)

/-- The `search_core` call a tool makes (`top_k=4`, `use_rerank=True`). -/
def executeToolSearch (env : SearchEnv) (q : String)
    (school_id page_type : Option String) : Except PyErr (List Doc) :=
  search_core q (env.embedFn q) env.connOk env.storageErr (env.tableFor q)
    env.scoreOf 4 true school_id page_type

/-- The shared tail of `_execute_tool`: empty results become the inline
"no data found" text, otherwise the results are sanity-annotated and
formatted. -/
def execToolResult (results : List Doc) : String :=
  if results.isEmpty then "[搜尋結果] 未找到相關資料。"
  else format_context_for_prompt (annotate_results results)

/-- `agent.py::_execute_tool`.  `args["query"]` raises `KeyError` when absent
(`dictGetE`); `args.get("school_id")` / `args.get("page_type")` are `None`
when absent (`dictGet`); an unknown tool name returns an inline error text. -/
def execute_tool (env : SearchEnv) (name : String)
    (args : List (String × String)) : Except PyErr String :=
  if name = "search_general" then do
    let q ← dictGetE args "query"
    let results ← executeToolSearch env q none none
    return execToolResult results
  else if name = "search_school" then do
    let q ← dictGetE args "query"
    let results ← executeToolSearch env q (dictGet args "school_id") none
    return execToolResult results
  else if name = "search_page_type" then do
    let q ← dictGetE args "query"
    let results ← executeToolSearch env q (dictGet args "school_id")
      (dictGet args "page_type")
    return execToolResult results
  else
    return ("[錯誤] 未知工具：" ++ name)

/-- The `for fc in function_calls` dispatch loop of one turn: returns the
tool-result texts (or the first escaping exception) together with the number
of `_execute_tool` executions started. -/
def execAllTools (env : SearchEnv) : List ToolCall → Except PyErr (List String) × Nat
  | [] => (.ok [], 0)
  | c :: cs =>
    match execute_tool env c.name c.args with
    | .error e => (.error e, 1)
    | .ok s =>
      let (r, k) := execAllTools env cs
      match r with
      | .ok rest => (.ok (s :: rest), k + 1)
      | .error e => (.error e, k + 1)

/-- The observable outcome of one `run_agent` session: the returned value (or
escaped exception), the number of `_execute_tool` executions, and the number
of generation calls made with and without tool capability. -/
structure AgentOutcome where
  result : Except PyErr String
  dispatches : Nat
  toolGenCalls : Nat
  noToolGenCalls : Nat
deriving DecidableEq, Repr

/-- The `final.replace("*", "").strip()` post-processing applied to every
final answer (`"*"` removal is a character filter; `strip` is `stripChars`). -/
def pyStripAnswer (s : String) : String :=
  String.mk (stripChars (s.toList.filter (fun c => c != '*')))

/-- The forced-stop user prompt of `run_agent`. -/
def forcePromptText : String :=
  "請根據以上你搜尋到的所有資料，現在生成最終回答。不要再呼叫任何工具。"

/-- The `while step < max_steps` loop of `run_agent`, by remaining fuel
(`max_steps − step`).  Fuel 0 is the forced stop: one more generation call
without tools, whose text (asterisks removed, stripped) is returned.  A turn
with no function calls ends the session with that turn's text (same
post-processing); a turn with calls dispatches them all, appends the
tool-result turn, and loops. -/
def agentLoop (model : List Turn → Bool → ModelResp) (env : SearchEnv) :
    Nat → List Turn → Nat → Nat → AgentOutcome
  | 0, history, d, g =>
    { result := .ok (pyStripAnswer (model (history ++ [Turn.user forcePromptText])
        false).text),
      dispatches := d, toolGenCalls := g, noToolGenCalls := 1 }
  | fuel + 1, history, d, g =>
    if (model history true).calls.isEmpty then
      { result := .ok (pyStripAnswer (model history true).text),
        dispatches := d, toolGenCalls := g + 1, noToolGenCalls := 0 }
    else
      match execAllTools env (model history true).calls with
      | (.ok results, k) =>
        agentLoop model env fuel
          (history ++ [Turn.model (model history true)] ++ [Turn.tool results])
          (d + k) (g + 1)
      | (.error e, k) =>
        { result := .error e, dispatches := d + k, toolGenCalls := g + 1,
          noToolGenCalls := 0 }

/-- `agent.py::run_agent`, seeded with the user query. -/
def run_agent (model : List Turn → Bool → ModelResp) (env : SearchEnv)
    (query : String) (max_steps : Nat) : AgentOutcome :=
  agentLoop model env max_steps [Turn.user query] 0 0

theorem execAllTools_count_le (env : SearchEnv) (cs : List ToolCall) :
    (execAllTools env cs).2 ≤ cs.length := by
  induction cs with
  | nil => exact Nat.le_refl _
  | cons c cs ih =>
    rw [execAllTools]
    cases execute_tool env c.name c.args with
    | error e => simp
    | ok s =>
      simp only
      rcases hx : execAllTools env cs with ⟨r, k⟩
      rw [hx] at ih
      cases r <;> simpa using Nat.succ_le_succ ih

/-- C1 (amended): the loop terminates with at most `max_steps` tool-calling
generation turns and at most one forced no-tool call, and when every model
turn requests at most `B` tool calls the total number of `_execute_tool`
executions is at most `max_steps * B` — the per-session bound is `max_steps`
times the per-turn request count, not `max_steps` itself. -/
theorem run_agent_step_and_dispatch_bound
    (model : List Turn → Bool → ModelResp) (env : SearchEnv) (query : String)
    (max_steps B : Nat)
    (hB : ∀ h b, ((model h b).calls).length ≤ B) :
    (run_agent model env query max_steps).dispatches ≤ max_steps * B ∧
    (run_agent model env query max_steps).toolGenCalls ≤ max_steps ∧
    (run_agent model env query max_steps).noToolGenCalls ≤ 1 := by
  have key : ∀ fuel history d g,
      (agentLoop model env fuel history d g).dispatches ≤ d + fuel * B ∧
      (agentLoop model env fuel history d g).toolGenCalls ≤ g + fuel ∧
      (agentLoop model env fuel history d g).noToolGenCalls ≤ 1 := by
    intro fuel
    induction fuel with
    | zero =>
      intro history d g
      simp [agentLoop]
    | succ n ih =>
      intro history d g
      rw [agentLoop]
      by_cases hc : (model history true).calls.isEmpty = true
      · rw [if_pos hc]
        refine ⟨?_, ?_, ?_⟩ <;> (dsimp only; omega)
      · rw [if_neg hc]
        have hk := execAllTools_count_le env (model history true).calls
        have hkB := le_trans hk (hB history true)
        rcases hx : execAllTools env (model history true).calls with ⟨r, k⟩
        rw [hx] at hkB
        dsimp only at hkB
        cases r with
        | ok results =>
          dsimp only
          obtain ⟨h1, h2, h3⟩ := ih (history ++ [Turn.model (model history true)]
            ++ [Turn.tool results]) (d + k) (g + 1)
          refine ⟨?_, ?_, h3⟩
          · rw [Nat.succ_mul]
            omega
          · omega
        | error e =>
          dsimp only
          have hB1 : B ≤ (n + 1) * B := Nat.le_mul_of_pos_left B (Nat.succ_pos n)
          exact ⟨by omega, by omega, by omega⟩
  obtain ⟨h1, h2, h3⟩ := key max_steps [Turn.user query] 0 0
  exact ⟨by simpa using h1, by simpa using h2, h3⟩

/-- A model oracle that requests two tool calls on every tool-capable turn. -/
def modelTwoCalls : List Turn → Bool → ModelResp := fun _ b =>
  if b then
    { calls := [⟨"search_general", [("query", "x")]⟩,
                ⟨"search_general", [("query", "y")]⟩], text := "" }
  else { calls := [], text := "done" }

/-- An environment whose store is empty (every search cleanly returns no
rows). -/
def envEmpty : SearchEnv :=
  { embedFn := fun _ => .ok [[1]], connOk := true, storageErr := none,
    tableFor := fun _ => [], scoreOf := fun _ _ => 0 }

/-- Counterexample to C1 as stated: with `max_steps = 1` and a model that
requests two tool calls in its single turn, `_execute_tool` runs twice — the
total number of tool dispatches exceeds `max_steps`. -/
theorem run_agent_dispatches_exceed_max_steps :
    (run_agent modelTwoCalls envEmpty "q" 1).dispatches = 2 ∧
    ¬ ((run_agent modelTwoCalls envEmpty "q" 1).dispatches ≤ 1) := by
  refine ⟨by decide, by decide⟩

/-- Witness for C1 (amended) at a concrete input: `max_steps = 3`, at most
two calls per turn. -/
theorem run_agent_step_and_dispatch_bound_witness :
    (run_agent modelTwoCalls envEmpty "q" 3).dispatches ≤ 3 * 2 ∧
    (run_agent modelTwoCalls envEmpty "q" 3).toolGenCalls ≤ 3 ∧
    (run_agent modelTwoCalls envEmpty "q" 3).noToolGenCalls ≤ 1 :=
  run_agent_step_and_dispatch_bound modelTwoCalls envEmpty "q" 3 2
    (by intro h b; cases b <;> simp [modelTwoCalls])

theorem execAllTools_all_ok (env : SearchEnv) (cs : List ToolCall)
    (h : ∀ c ∈ cs, ∃ s, execute_tool env c.name c.args = .ok s) :
    ∃ rs, execAllTools env cs = (.ok rs, cs.length) := by
  induction cs with
  | nil => exact ⟨[], rfl⟩
  | cons c cs ih =>
    obtain ⟨s, hs⟩ := h c (List.mem_cons_self c cs)
    obtain ⟨rs, hrs⟩ := ih fun a ha => h a (List.mem_cons_of_mem c ha)
    refine ⟨s :: rs, ?_⟩
    rw [execAllTools, hs, hrs]
    rfl

/-- C2 (amended): when the model requests tools on every tool-capable turn
and every requested tool call executes cleanly, the session makes exactly
`max_steps` tool-capable generation calls and then exactly one generation
call with tool capability withdrawn, and the returned final answer is that
single call's text after the `replace("*", "").strip()` post-processing. -/
theorem run_agent_forced_stop_single_call
    (model : List Turn → Bool → ModelResp) (env : SearchEnv) (query : String)
    (max_steps : Nat)
    (hcalls : ∀ h, (model h true).calls ≠ [])
    (hexec : ∀ h c, c ∈ (model h true).calls →
      ∃ s, execute_tool env c.name c.args = .ok s) :
    (run_agent model env query max_steps).noToolGenCalls = 1 ∧
    (run_agent model env query max_steps).toolGenCalls = max_steps ∧
    ∃ h, (run_agent model env query max_steps).result =
      .ok (pyStripAnswer (model (h ++ [Turn.user forcePromptText]) false).text) := by
  have key : ∀ fuel history d g,
      (agentLoop model env fuel history d g).noToolGenCalls = 1 ∧
      (agentLoop model env fuel history d g).toolGenCalls = g + fuel ∧
      ∃ h, (agentLoop model env fuel history d g).result =
        .ok (pyStripAnswer (model (h ++ [Turn.user forcePromptText]) false).text) := by
    intro fuel
    induction fuel with
    | zero =>
      intro history d g
      exact ⟨rfl, rfl, history, rfl⟩
    | succ n ih =>
      intro history d g
      rw [agentLoop]
      have hne : ¬ (model history true).calls.isEmpty = true := by
        rw [List.isEmpty_iff]
        exact hcalls history
      rw [if_neg hne]
      obtain ⟨rs, hrs⟩ := execAllTools_all_ok env (model history true).calls
        (hexec history)
      rw [hrs]
      dsimp only
      obtain ⟨h1, h2, h3⟩ := ih (history ++ [Turn.model (model history true)]
        ++ [Turn.tool rs]) (d + (model history true).calls.length) (g + 1)
      exact ⟨h1, by omega, h3⟩
  obtain ⟨h1, h2, h3⟩ := key max_steps [Turn.user query] 0 0
  exact ⟨h1, by simpa using h2, h3⟩

/-- A model oracle that always requests one tool call when tools are
available and answers `"*hi*"` when they are withdrawn. -/
def modelStar : List Turn → Bool → ModelResp := fun _ b =>
  if b then { calls := [⟨"search_general", [("query", "x")]⟩], text := "" }
  else { calls := [], text := "*hi*" }

/-- Counterexample to C2 as stated: the forced-stop answer is *not* the text
produced by the final no-tool call — the code strips asterisks and
whitespace first (`final_response.text.replace("*", "").strip()`), so
`"*hi*"` comes back as `"hi"`. -/
theorem run_agent_forced_answer_postprocessed :
    (run_agent modelStar envEmpty "q" 1).result = .ok "hi" ∧
    (modelStar [] false).text = "*hi*" ∧
    ("hi" : String) ≠ "*hi*" := by
  refine ⟨by decide, by decide, by decide⟩

/-- Witness for C2 (amended) at a concrete input: `max_steps = 2`, a model
that keeps requesting tools. -/
theorem run_agent_forced_stop_single_call_witness :
    (run_agent modelStar envEmpty "q" 2).noToolGenCalls = 1 ∧
    (run_agent modelStar envEmpty "q" 2).toolGenCalls = 2 ∧
    ∃ h, (run_agent modelStar envEmpty "q" 2).result =
      .ok (pyStripAnswer (modelStar (h ++ [Turn.user forcePromptText]) false).text) :=
  run_agent_forced_stop_single_call modelStar envEmpty "q" 2
    (by intro h; simp [modelStar])
    (by
      intro h c hc
      simp only [modelStar, if_true] at hc
      rw [List.mem_singleton] at hc
      subst hc
      exact ⟨"[搜尋結果] 未找到相關資料。", by decide⟩)

/-- C5 (amended): an unknown tool name and an empty/failed search both come
back as inline `.ok` texts rather than exceptions, and a session in which
every requested tool call executes cleanly always ends with a returned
answer; but a tool call whose `args` lack the required `"query"` key raises
`KeyError` (see the counterexample). -/
theorem tool_failures_inline
    (model : List Turn → Bool → ModelResp) (env : SearchEnv) (query : String)
    (max_steps : Nat) (name : String) (args : List (String × String)) :
    (name ≠ "search_general" → name ≠ "search_school" →
      name ≠ "search_page_type" →
      execute_tool env name args = .ok ("[錯誤] 未知工具：" ++ name)) ∧
    (∀ q v, dictGet args "query" = some q → env.embedFn q = .ok v → v ≠ [] →
      env.connOk = false →
      execute_tool env "search_general" args =
        .ok "[搜尋結果] 未找到相關資料。") ∧
    ((∀ h c, c ∈ (model h true).calls →
        ∃ s, execute_tool env c.name c.args = .ok s) →
      ∃ s, (run_agent model env query max_steps).result = .ok s) := by
  refine ⟨?_, ?_, ?_⟩
  · intro h1 h2 h3
    unfold execute_tool
    rw [if_neg h1, if_neg h2, if_neg h3]
    rfl
  · intro q v hq hv hvne hconn
    unfold execute_tool
    rw [if_pos rfl]
    have hsearch : executeToolSearch env q none none = .ok [] := by
      unfold executeToolSearch
      exact (search_core_storage_failure_empty q (env.embedFn q) env.connOk
        env.storageErr (env.tableFor q) env.scoreOf 4 true none none).2.1 v hv
        hconn
    simp only [dictGetE, hq, bind, Except.bind, hsearch]
    rfl
  · intro hexec
    have key : ∀ fuel history d g,
        ∃ s, (agentLoop model env fuel history d g).result = .ok s := by
      intro fuel
      induction fuel with
      | zero => intro history d g; exact ⟨_, rfl⟩
      | succ n ih =>
        intro history d g
        rw [agentLoop]
        by_cases hc : (model history true).calls.isEmpty = true
        · rw [if_pos hc]
          exact ⟨_, rfl⟩
        · rw [if_neg hc]
          obtain ⟨rs, hrs⟩ := execAllTools_all_ok env (model history true).calls
            (hexec history)
          rw [hrs]
          exact ih _ _ _
    exact key max_steps [Turn.user query] 0 0

/-- A model oracle whose single tool call lacks the required `"query"`
argument. -/
def modelNoArgs : List Turn → Bool → ModelResp := fun _ b =>
  if b then { calls := [⟨"search_general", []⟩], text := "" }
  else { calls := [], text := "t" }

/-- Counterexample to C5 as stated: a tool call with a missing `"query"`
argument raises `KeyError("query")` inside `_execute_tool`, and the exception
propagates across the loop boundary out of `run_agent` instead of becoming an
inline error text. -/
theorem run_agent_keyerror_escapes :
    (run_agent modelNoArgs envEmpty "q" 3).result =
      .error (PyErr.keyError "query") := by
  decide

/-- An environment whose store connection is unavailable. -/
def envDown : SearchEnv :=
  { embedFn := fun _ => .ok [[1]], connOk := false, storageErr := none,
    tableFor := fun _ => [], scoreOf := fun _ _ => 0 }

/-- Witness for C5 (amended) at concrete inputs: an unknown tool, a search
with an unreachable store, and a clean session. -/
theorem tool_failures_inline_witness :
    execute_tool envEmpty "frobnicate" [] =
      .ok ("[錯誤] 未知工具：" ++ "frobnicate") ∧
    execute_tool envDown "search_general" [("query", "x")] =
      .ok "[搜尋結果] 未找到相關資料。" ∧
    ∃ s, (run_agent modelStar envEmpty "q" 2).result = .ok s :=
  ⟨(tool_failures_inline modelStar envEmpty "q" 2 "frobnicate" []).1
      (by decide) (by decide) (by decide),
   (tool_failures_inline modelStar envDown "q" 2 "search_general"
      [("query", "x")]).2.1 "x" [[1]] (by decide) rfl (by decide) rfl,
   (tool_failures_inline modelStar envEmpty "q" 2 "search_general" []).2.2
      (by
        intro h c hc
        simp only [modelStar, if_true] at hc
        rw [List.mem_singleton] at hc
        subst hc
        exact ⟨"[搜尋結果] 未找到相關資料。", by decide⟩)⟩

end StudyAbroad










